import Mathlib

/-!
Shallow embedding of the expression evaluator of AdvancedConfigParser
(file `AdvancedConfigParser.py`: classes `LazyEval`, `Option`, reference
resolution) and of the serializer (file `ast_to_src.py`).

Modelling conventions:
* Python runtime values are the inductive type `Obj`.  Python floats are
  modelled as rationals (`vrat`); no claim depends on binary floating point
  rounding.  Python `Section` objects can themselves be the result of a
  reference lookup, so `Obj` has a `vsec` constructor carrying the section's
  named children; an option child is stored as its current value (a snapshot
  of the mutable tree at the moment of evaluation), a section child as a
  `vsec`.  `getattr` on a section finds exactly these children.
* Python `dict` values are association lists in insertion order; the claims
  never build a dict literal with duplicate keys, so key deduplication is
  not modelled.
* The evaluator `LazyEval._acp_eval` can recurse without bound on cyclic
  input, so the embedding takes a fuel argument; running out of fuel is the
  distinct error `Err.outOfFuel`, which a sufficiently large fuel avoids on
  every acyclic input.
* `_acp_eval` returns Python `None` (falling off the end of the function)
  for a `Call` whose function name is not whitelisted and for `ast.Load`
  context nodes; the embedding returns `Option.none` for exactly those
  paths, and sites that unpack the pair `val, has_refs` turn `None` into a
  Python `TypeError`, as the interpreter would.
-/

namespace ACP

/-- Python runtime values, as produced by the evaluator. -/
inductive Obj : Type where
  | vint (n : Int)
  | vrat (q : Rat)
  | vstr (s : String)
  | vbool (b : Bool)
  | vnone
  | vlist (elts : List Obj)
  | vtuple (elts : List Obj)
  | vdict (pairs : List (Obj × Obj))
  | vsec (children : List (String × Obj))

/-- Python exception kinds that the evaluator and serializer can raise. -/
inductive Err : Type where
  | typeError (msg : String)
  | valueError (msg : String)
  | attrError (msg : String)
  | synError (msg : String)
  | runtimeError (msg : String)
  | zeroDivisionError (msg : String)
  | keyError (msg : String)
  | notModelled (msg : String)
  | outOfFuel
deriving DecidableEq

/-- Unary operator tags (`ast.USub`, `ast.UAdd`, `ast.Invert`, `ast.Not`). -/
inductive UOp : Type where
  | usub | uadd | invert | notOp
deriving DecidableEq

/-- Binary operator tags, the keys of the `ops` dict in `_acp_eval`. -/
inductive BOp : Type where
  | add | sub | mult | div | floorDiv | mod | pow
  | lshift | rshift | bitOr | bitXor | bitAnd
deriving DecidableEq

/-- Comparison operator tags, the keys of `astOp2FuncOp`. -/
inductive CmpOp : Type where
  | eq | ne | lt | le | gt | ge | isOp | isNot | inOp | notIn
deriving DecidableEq

/-- Boolean operator tags (`ast.And`, `ast.Or`). -/
inductive BoolK : Type where
  | andK | orK
deriving DecidableEq

/-- Expression nodes, mirroring the `ast` nodes that `_acp_eval` and
`ast_to_src` handle.  A `Name`/`Attribute` chain is kept as the list of its
dotted segments, exactly the list `_acp_eval` builds (it concatenates the
attributes into a dotted string that `_acp_resolve_reference` splits again).
`dictE` keeps the `ast.Dict` shape: a list of keys and a list of values. -/
inductive Expr : Type where
  | num (n : Int)
  | fnum (q : Rat)
  | strE (s : String)
  | boolc (b : Bool)
  | nonec
  | ref (attrs : List String)
  | unop (op : UOp) (e : Expr)
  | binop (op : BOp) (l : Expr) (r : Expr)
  | boolop (k : BoolK) (vs : List Expr)
  | cmp (l : Expr) (ops : List CmpOp) (rs : List Expr)
  | cond (c : Expr) (t : Expr) (f : Expr)
  | listE (es : List Expr)
  | tupleE (es : List Expr)
  | dictE (keys : List Expr) (vals : List Expr)
  | callE (f : String) (args : List Expr) (kwargs : List (String × Expr))

mutual

/-- Python hashability: lists, dicts and sections are unhashable; a tuple is
hashable iff all of its elements are. -/
def hashable : Obj → Bool
  | .vint _ => true
  | .vrat _ => true
  | .vstr _ => true
  | .vbool _ => true
  | .vnone => true
  | .vlist _ => false
  | .vtuple elts => hashableList elts
  | .vdict _ => false
  | .vsec _ => false

/-- All elements hashable. -/
def hashableList : List Obj → Bool
  | [] => true
  | v :: vs => hashable v && hashableList vs

end

/-- Result of `ast.literal_eval`: a value, a caught `ValueError` (the node is
not a literal; `_acp_eval` catches `(SyntaxError, ValueError)` and falls
through to the other branches), or an uncaught exception (`TypeError` for an
unhashable dict key). -/
inductive LitErr : Type where
  | notLit
  | hard (e : Err)

mutual

/-- `ast.literal_eval(node)`: succeeds on literal structure only.
Unary `-`/`+` apply recursively to numeric literals (Python bools count as
numbers there, since `bool` subclasses `int`).  The fuel argument only
bounds recursion depth of the model; it never runs out when it exceeds the
nesting depth of the expression. -/
def litEvalF : Nat → Expr → Except LitErr Obj
  | 0, _ => .error (.hard .outOfFuel)
  | _ + 1, .num n => .ok (.vint n)
  | _ + 1, .fnum q => .ok (.vrat q)
  | _ + 1, .strE s => .ok (.vstr s)
  | _ + 1, .boolc b => .ok (.vbool b)
  | _ + 1, .nonec => .ok .vnone
  | fuel + 1, .listE es => do
      let vs ← litListF fuel es
      .ok (.vlist vs)
  | fuel + 1, .tupleE es => do
      let vs ← litListF fuel es
      .ok (.vtuple vs)
  | fuel + 1, .dictE ks vs => do
      let pairs ← litDictF fuel ks vs
      .ok (.vdict pairs)
  | fuel + 1, .unop op e =>
      match litEvalF fuel e with
      | .error er => .error er
      | .ok v =>
        match op, v with
        | .usub, .vint n => .ok (.vint (-n))
        | .usub, .vrat q => .ok (.vrat (-q))
        | .usub, .vbool b => .ok (.vint (-(if b then (1 : Int) else 0)))
        | .uadd, .vint n => .ok (.vint n)
        | .uadd, .vrat q => .ok (.vrat q)
        | .uadd, .vbool b => .ok (.vint (if b then (1 : Int) else 0))
        | _, _ => .error .notLit
  | _ + 1, .ref _ => .error .notLit
  | _ + 1, .binop _ _ _ => .error .notLit
  | _ + 1, .boolop _ _ => .error .notLit
  | _ + 1, .cmp _ _ _ => .error .notLit
  | _ + 1, .cond _ _ _ => .error .notLit
  | _ + 1, .callE _ _ _ => .error .notLit

/-- Elementwise `literal_eval` of list/tuple elements. -/
def litListF : Nat → List Expr → Except LitErr (List Obj)
  | 0, _ => .error (.hard .outOfFuel)
  | _ + 1, [] => .ok []
  | fuel + 1, e :: es => do
      let v ← litEvalF fuel e
      let vs ← litListF fuel es
      .ok (v :: vs)

/-- Pairwise `literal_eval` of a dict literal: for each pair, convert the
key, convert the value, then the dict insertion raises `TypeError` if the
key is unhashable; later pairs are only reached after earlier insertions. -/
def litDictF : Nat → List Expr → List Expr → Except LitErr (List (Obj × Obj))
  | 0, _, _ => .error (.hard .outOfFuel)
  | fuel + 1, k :: ks, v :: vs => do
      let kv ← litEvalF fuel k
      let vv ← litEvalF fuel v
      if hashable kv then
        let rest ← litDictF fuel ks vs
        .ok ((kv, vv) :: rest)
      else
        .error (.hard (.typeError ("unhashable type")))
  | _ + 1, _, _ => .ok []

end

/-- Python truthiness (`bool(x)`): zero numbers, empty strings and empty
containers and `None` are falsy; `Section` objects are truthy. -/
def truthy : Obj → Bool
  | .vint n => n != 0
  | .vrat q => q != 0
  | .vstr s => s != ("")
  | .vbool b => b
  | .vnone => false
  | .vlist elts => !elts.isEmpty
  | .vtuple elts => !elts.isEmpty
  | .vdict pairs => !pairs.isEmpty
  | .vsec _ => true

/-- Numeric view of a value: Python `bool` is a subclass of `int`, and `int`
coerces to `float` (here `Rat`). -/
def asRatNum : Obj → Option Rat
  | .vint n => some (n : Rat)
  | .vbool b => some (if b then 1 else 0)
  | .vrat q => some q
  | _ => none

/-- View of a value as a Python `int` (covers `bool`). -/
def asIntNum : Obj → Option Int
  | .vint n => some n
  | .vbool b => some (if b then 1 else 0)
  | _ => none

mutual

/-- Python `==` on the modelled values.  Numbers compare across `int`,
`bool` and `float`; values of unrelated kinds compare unequal; dicts are
compared as their insertion-ordered pair lists and sections structurally
(a simplification of Python's unordered dict equality and of section
object identity, neither of which any claim exercises). -/
def objEq (a b : Obj) : Bool :=
  match a, b with
  | .vstr s, .vstr t => s == t
  | .vnone, .vnone => true
  | .vlist xs, .vlist ys => objEqList xs ys
  | .vtuple xs, .vtuple ys => objEqList xs ys
  | .vdict xs, .vdict ys => objEqPairs xs ys
  | .vsec xs, .vsec ys => objEqChildren xs ys
  | a, b =>
    match asRatNum a, asRatNum b with
    | some x, some y => x == y
    | _, _ => false
termination_by sizeOf a
decreasing_by all_goals simp_wf

/-- Pointwise equality of element lists. -/
def objEqList : List Obj → List Obj → Bool
  | [], [] => true
  | x :: xs, y :: ys => objEq x y && objEqList xs ys
  | _, _ => false
termination_by xs _ => sizeOf xs
decreasing_by all_goals (simp_wf <;> omega)

/-- Pointwise equality of pair lists. -/
def objEqPairs : List (Obj × Obj) → List (Obj × Obj) → Bool
  | [], [] => true
  | (k, v) :: xs, (l, w) :: ys => objEq k l && objEq v w && objEqPairs xs ys
  | _, _ => false
termination_by xs _ => sizeOf xs
decreasing_by all_goals (simp_wf <;> omega)

/-- Pointwise equality of named children. -/
def objEqChildren : List (String × Obj) → List (String × Obj) → Bool
  | [], [] => true
  | (n, v) :: xs, (m, w) :: ys => n == m && objEq v w && objEqChildren xs ys
  | _, _ => false
termination_by xs _ => sizeOf xs
decreasing_by all_goals (simp_wf <;> omega)

end

/-- Strict `<` where Python defines it for the modelled values: numbers
(across `int`/`bool`/`float`) and strings.  Sequence lexicographic order is
not modelled (no claim uses it). -/
def objLt (a b : Obj) : Except Err Bool :=
  match asRatNum a, asRatNum b with
  | some x, some y => .ok (decide (x < y))
  | _, _ =>
    match a, b with
    | .vstr s, .vstr t => .ok (decide (s < t))
    | .vlist _, .vlist _ => .error (.notModelled ("sequence order"))
    | .vtuple _, .vtuple _ => .error (.notModelled ("sequence order"))
    | _, _ => .error (.typeError ("unorderable types"))

/-- Does the first character list lead the second one? -/
def leadsChars : List Char → List Char → Bool
  | [], _ => true
  | _ :: _, [] => false
  | a :: as, b :: bs => a == b && leadsChars as bs

/-- Substring test on character lists. -/
def substrChars (needle : List Char) (hay : List Char) : Bool :=
  match hay with
  | [] => leadsChars needle []
  | _ :: rest => leadsChars needle hay || substrChars needle rest

/-- Python membership `a in b` for strings (substring), lists, tuples and
dicts (keys). -/
def objMem (a b : Obj) : Except Err Bool :=
  match b with
  | .vlist elts => .ok (elts.any (fun x => objEq a x))
  | .vtuple elts => .ok (elts.any (fun x => objEq a x))
  | .vdict pairs => .ok (pairs.any (fun p => objEq a p.1))
  | .vstr t =>
    match a with
    | .vstr s => .ok (substrChars s.data t.data)
    | _ => .error (.typeError ("in requires string as left operand"))
  | _ => .error (.typeError ("argument is not iterable"))

/-- Python `is` (object identity), modelled only where the language
guarantees it (`None` and `bool` are singletons). -/
def objIs (a b : Obj) : Except Err Bool :=
  match a, b with
  | .vnone, .vnone => .ok true
  | .vnone, _ => .ok false
  | _, .vnone => .ok false
  | .vbool x, .vbool y => .ok (x == y)
  | .vbool _, _ => .ok false
  | _, .vbool _ => .ok false
  | _, _ => .error (.notModelled ("object identity"))

/-- The comparison operators of `astOp2FuncOp` applied to two values,
returning the Python boolean of the step. -/
def applyCmp (op : CmpOp) (a b : Obj) : Except Err Bool :=
  match op with
  | .eq => .ok (objEq a b)
  | .ne => .ok (!objEq a b)
  | .lt => objLt a b
  | .le => do
      let l ← objLt a b
      .ok (l || objEq a b)
  | .gt => objLt b a
  | .ge => do
      let l ← objLt b a
      .ok (l || objEq a b)
  | .isOp => objIs a b
  | .isNot => do
      let r ← objIs a b
      .ok (!r)
  | .inOp => objMem a b
  | .notIn => do
      let r ← objMem a b
      .ok (!r)

/-- Both operands `int`-like (`int` or `bool`)? -/
def bothInt (a b : Obj) : Option (Int × Int) :=
  match asIntNum a, asIntNum b with
  | some x, some y => some (x, y)
  | _, _ => none

/-- Both operands numeric, at least one a float? -/
def bothRat (a b : Obj) : Option (Rat × Rat) :=
  match asRatNum a, asRatNum b with
  | some x, some y => some (x, y)
  | _, _ => none

/-- The binary operator table `ops` of `_acp_eval`, applied via the
`operator` module: standard Python arithmetic, sequence concatenation and
repetition, and bitwise integer operations.  `int op int` stays `int`
(except true division); mixed `int`/`float` produces `float` (`Rat`). -/
def applyBin (op : BOp) (a b : Obj) : Except Err Obj :=
  match op with
  | .add =>
    match bothInt a b with
    | some (x, y) => .ok (.vint (x + y))
    | none =>
      match bothRat a b with
      | some (x, y) => .ok (.vrat (x + y))
      | none =>
        match a, b with
        | .vstr s, .vstr t => .ok (.vstr (s ++ t))
        | .vlist xs, .vlist ys => .ok (.vlist (xs ++ ys))
        | .vtuple xs, .vtuple ys => .ok (.vtuple (xs ++ ys))
        | _, _ => .error (.typeError ("unsupported operand types for +"))
  | .sub =>
    match bothInt a b with
    | some (x, y) => .ok (.vint (x - y))
    | none =>
      match bothRat a b with
      | some (x, y) => .ok (.vrat (x - y))
      | none => .error (.typeError ("unsupported operand types for -"))
  | .mult =>
    match bothInt a b with
    | some (x, y) => .ok (.vint (x * y))
    | none =>
      match bothRat a b with
      | some (x, y) => .ok (.vrat (x * y))
      | none =>
        match a, b with
        | .vstr s, .vint n => .ok (.vstr (String.join (List.replicate n.toNat s)))
        | .vint n, .vstr s => .ok (.vstr (String.join (List.replicate n.toNat s)))
        | .vlist xs, .vint n => .ok (.vlist (List.flatten (List.replicate n.toNat xs)))
        | .vint n, .vlist xs => .ok (.vlist (List.flatten (List.replicate n.toNat xs)))
        | .vtuple xs, .vint n => .ok (.vtuple (List.flatten (List.replicate n.toNat xs)))
        | .vint n, .vtuple xs => .ok (.vtuple (List.flatten (List.replicate n.toNat xs)))
        | _, _ => .error (.typeError ("unsupported operand types for *"))
  | .div =>
    match bothRat a b with
    | some (x, y) =>
      if y == 0 then .error (.zeroDivisionError ("division by zero"))
      else .ok (.vrat (x / y))
    | none => .error (.typeError ("unsupported operand types for /"))
  | .floorDiv =>
    match bothInt a b with
    | some (x, y) =>
      if y == 0 then .error (.zeroDivisionError ("integer division or modulo by zero"))
      else .ok (.vint (Int.fdiv x y))
    | none =>
      match bothRat a b with
      | some (x, y) =>
        if y == 0 then .error (.zeroDivisionError ("float floor division by zero"))
        else .ok (.vrat ((⌊x / y⌋ : Int) : Rat))
      | none => .error (.typeError ("unsupported operand types for //"))
  | .mod =>
    match bothInt a b with
    | some (x, y) =>
      if y == 0 then .error (.zeroDivisionError ("integer division or modulo by zero"))
      else .ok (.vint (Int.fmod x y))
    | none =>
      match bothRat a b with
      | some (x, y) =>
        if y == 0 then .error (.zeroDivisionError ("float modulo"))
        else .ok (.vrat (x - y * ((⌊x / y⌋ : Int) : Rat)))
      | none => .error (.typeError ("unsupported operand types for %"))
  | .pow =>
    match bothInt a b with
    | some (x, y) =>
      if 0 ≤ y then .ok (.vint (x ^ y.toNat))
      else if x == 0 then .error (.zeroDivisionError ("zero to a negative power"))
      else .ok (.vrat ((x : Rat) ^ y))
    | none =>
      match a, asIntNum b with
      | .vrat q, some y =>
        if q == 0 && y < 0 then .error (.zeroDivisionError ("zero to a negative power"))
        else .ok (.vrat (q ^ y))
      | _, _ => .error (.notModelled ("non-integer exponent"))
  | .lshift =>
    match bothInt a b with
    | some (x, y) =>
      if y < 0 then .error (.valueError ("negative shift count"))
      else .ok (.vint (x * 2 ^ y.toNat))
    | none => .error (.typeError ("unsupported operand types for <<"))
  | .rshift =>
    match bothInt a b with
    | some (x, y) =>
      if y < 0 then .error (.valueError ("negative shift count"))
      else .ok (.vint (Int.fdiv x (2 ^ y.toNat)))
    | none => .error (.typeError ("unsupported operand types for >>"))
  | .bitOr =>
    match bothInt a b with
    | some (x, y) => .ok (.vint (Int.lor x y))
    | none => .error (.typeError ("unsupported operand types for |"))
  | .bitXor =>
    match bothInt a b with
    | some (x, y) => .ok (.vint (Int.xor x y))
    | none => .error (.typeError ("unsupported operand types for ^"))
  | .bitAnd =>
    match bothInt a b with
    | some (x, y) => .ok (.vint (Int.land x y))
    | none => .error (.typeError ("unsupported operand types for &"))

/-- First child of a section with the given name (`Section` stores children
in its `__dict__`, so names are unique). -/
def lookupName : List (String × Obj) → String → Option Obj
  | [], _ => none
  | (n, v) :: rest, a => if n == a then some v else lookupName rest a

/-- One `getattr(obj, attr)` step of `_acp_resolve_reference`: on a section
it finds a named child (an option child stands for its current value, a
section child for the section); on any other value it raises
`AttributeError` (host attributes of built-in types are not modelled). -/
def getattrOne : Obj → String → Except Unit Obj
  | .vsec children, a =>
    match lookupName children a with
    | some v => .ok v
    | none => .error ()
  | _, _ => .error ()

/-- The inner `for attr in attrs: obj = getattr(obj, attr)` loop. -/
def getattrPath (o : Obj) : List String → Except Unit Obj
  | [] => .ok o
  | a :: as =>
    match getattrOne o a with
    | .ok v => getattrPath v as
    | .error _ => .error ()

/-- `LazyEval._acp_resolve_reference(ref, parent)`: walk up the scope chain
(innermost section first), returning the first scope in which the whole
dotted path resolves; raise `AttributeError(ref)` when the root is
exhausted. -/
def resolveRef : List Obj → List String → Except Err Obj
  | [], attrs => .error (.attrError (String.intercalate (".") attrs))
  | scope :: outer, attrs =>
    match getattrPath scope attrs with
    | .ok v => .ok v
    | .error _ => resolveRef outer attrs

/-- The whitelist of callable builtins in the `ast.Call` branch of
`_acp_eval`. -/
def whitelist : List String :=
  ["abs", "all", "any", "bin", "bool", "chr", "complex", "dict", "divmod",
   "enumerate", "float", "hex", "int", "len", "list", "max", "min", "oct",
   "ord", "pow", "range", "reversed", "round", "set", "sorted", "str",
   "sum", "tuple", "type", "unichr", "zip"]

/-- Largest element of a nonempty list under Python `<`. -/
def maxOf (v : Obj) : List Obj → Except Err Obj
  | [] => .ok v
  | x :: xs => do
      let lt ← objLt v x
      maxOf (if lt then x else v) xs

/-- Smallest element of a nonempty list under Python `<`. -/
def minOf (v : Obj) : List Obj → Except Err Obj
  | [] => .ok v
  | x :: xs => do
      let lt ← objLt x v
      minOf (if lt then x else v) xs

/-- Sum of a list of values starting from `0`, via Python `+`. -/
def sumOf (acc : Obj) : List Obj → Except Err Obj
  | [] => .ok acc
  | x :: xs => do
      let s ← applyBin .add acc x
      sumOf s xs

/-- Elements of an iterable value, where iteration is modelled (a dict
iterates over its keys). -/
def iterElems : Obj → Except Err (List Obj)
  | .vlist elts => .ok elts
  | .vtuple elts => .ok elts
  | .vdict pairs => .ok (pairs.map Prod.fst)
  | .vstr s => .ok (s.data.map (fun c => .vstr (String.singleton c)))
  | _ => .error (.typeError ("object is not iterable"))

/-- Host builtin application `builtins.__dict__[name](*args, **kwargs)`.
The builtins themselves are host-language collaborators, not code of this
repository; the ones a claim or test exercises are modelled faithfully and
the rest answer `Err.notModelled` (never a success and never a Python error
kind, so no theorem can lean on an unmodelled behavior).  In Python 3 the
whitelisted name `unichr` does not exist in `builtins.__dict__`, so applying
it raises `KeyError` before the call. -/
def builtinApply (name : String) (args : List Obj) (kwargs : List (String × Obj)) :
    Except Err Obj :=
  if name == ("unichr") then .error (.keyError ("unichr")) else
  if !kwargs.isEmpty && name != ("dict") then .error (.notModelled ("kwargs")) else
  match name, args with
  | "abs", [.vint n] => .ok (.vint n.natAbs)
  | "abs", [.vrat q] => .ok (.vrat |q|)
  | "abs", [.vbool b] => .ok (.vint (if b then 1 else 0))
  | "bool", [] => .ok (.vbool false)
  | "bool", [v] => .ok (.vbool (truthy v))
  | "len", [.vstr s] => .ok (.vint s.length)
  | "len", [.vlist elts] => .ok (.vint elts.length)
  | "len", [.vtuple elts] => .ok (.vint elts.length)
  | "len", [.vdict pairs] => .ok (.vint pairs.length)
  | "len", [_] => .error (.typeError ("object has no len"))
  | "max", [v] => do
      let elts ← iterElems v
      match elts with
      | [] => .error (.valueError ("max arg is an empty sequence"))
      | x :: xs => maxOf x xs
  | "max", v :: w :: rest => maxOf v (w :: rest)
  | "min", [v] => do
      let elts ← iterElems v
      match elts with
      | [] => .error (.valueError ("min arg is an empty sequence"))
      | x :: xs => minOf x xs
  | "min", v :: w :: rest => minOf v (w :: rest)
  | "sum", [v] => do
      let elts ← iterElems v
      sumOf (.vint 0) elts
  | "int", [.vint n] => .ok (.vint n)
  | "int", [.vbool b] => .ok (.vint (if b then 1 else 0))
  | "int", [.vrat q] => .ok (.vint (Int.tdiv q.num q.den))
  | "float", [.vint n] => .ok (.vrat (n : Rat))
  | "float", [.vbool b] => .ok (.vrat (if b then 1 else 0))
  | "float", [.vrat q] => .ok (.vrat q)
  | "str", [] => .ok (.vstr (""))
  | "str", [.vstr s] => .ok (.vstr s)
  | "str", [.vint n] => .ok (.vstr (toString n))
  | "str", [.vbool b] => .ok (.vstr (if b then ("True") else ("False")))
  | "str", [.vnone] => .ok (.vstr ("None"))
  | "list", [] => .ok (.vlist [])
  | "list", [v] => do
      let elts ← iterElems v
      .ok (.vlist elts)
  | "tuple", [] => .ok (.vtuple [])
  | "tuple", [v] => do
      let elts ← iterElems v
      .ok (.vtuple elts)
  | "any", [v] => do
      let elts ← iterElems v
      .ok (.vbool (elts.any truthy))
  | "all", [v] => do
      let elts ← iterElems v
      .ok (.vbool (elts.all truthy))
  | "divmod", [a, b] =>
    match bothInt a b with
    | some (x, y) =>
      if y == 0 then .error (.zeroDivisionError ("integer division or modulo by zero"))
      else .ok (.vtuple [.vint (Int.fdiv x y), .vint (Int.fmod x y)])
    | none => .error (.notModelled ("divmod"))
  | "pow", [a, b] => applyBin .pow a b
  | "dict", [] => .ok (.vdict (kwargs.map (fun p => (.vstr p.1, p.2))))
  | _, _ => .error (.notModelled name)

/-- Evaluation outcome of `_acp_eval`: an uncaught exception, Python `None`
(the function fell off its end), or the pair `(value, has_refs)`. -/
abbrev EvalOut := Except Err (Option (Obj × Bool))

/-- Unpacking `val, has_refs = _acp_eval(...)` at a site that needs the
pair: Python raises `TypeError` when the result is `None`. -/
def unpackPy : Option (Obj × Bool) → Except Err (Obj × Bool)
  | some p => .ok p
  | none => .error (.typeError ("cannot unpack non-iterable NoneType object"))

mutual

/-- `LazyEval._acp_eval(parent, node)` over the scope chain `env` (the
owning section first, then its ancestors up to the root).  Branches in
source order: `ast.literal_eval` first; then `Name`/`Attribute` (external
references, always flagged `has_refs = true`); `List`/`Tuple`/`Dict`
(children in `ast.iter_child_nodes` order — for a dict all keys then all
values — where a `None` sub-result is skipped by `if not tmp: continue`,
each kept child OVERWRITES `has_refs`, and the `Dict` case returns the
accumulated Python list unchanged); `BinOp`; whitelisted `Call` (a call
outside the whitelist falls through, returning `None`); `IfExp`;
`Compare`; `BoolOp`; else `RuntimeError("unhandled node")` — in particular
there is no `ast.UnaryOp` branch.  The closed `BOp`/`BoolK` types make the
source's `SyntaxError("op not supported yet")` and
`RuntimeError("unreachable")` arms unrepresentable. -/
def evalF : Nat → List Obj → Expr → EvalOut
  | 0, _, _ => .error .outOfFuel
  | fuel + 1, env, e =>
    match litEvalF (fuel + 1) e with
    | .ok v => .ok (some (v, false))
    | .error (.hard er) => .error er
    | .error .notLit =>
      match e with
      | .ref attrs =>
        match resolveRef env attrs with
        | .ok v => .ok (some (v, true))
        | .error er => .error er
      | .listE es =>
        match childrenF fuel env false es with
        | .error er => .error er
        | .ok (vs, f) => .ok (some (.vlist vs, f))
      | .tupleE es =>
        match childrenF fuel env false es with
        | .error er => .error er
        | .ok (vs, f) => .ok (some (.vtuple vs, f))
      | .dictE ks vls =>
        match childrenF fuel env false ks with
        | .error er => .error er
        | .ok (kvals, f1) =>
          match childrenF fuel env f1 vls with
          | .error er => .error er
          | .ok (vvals, f2) => .ok (some (.vlist (kvals ++ vvals), f2))
      | .binop op l r =>
        match evalF fuel env l with
        | .error er => .error er
        | .ok tl =>
          match unpackPy tl with
          | .error er => .error er
          | .ok (lv, lf) =>
            match evalF fuel env r with
            | .error er => .error er
            | .ok tr =>
              match unpackPy tr with
              | .error er => .error er
              | .ok (rv, rf) =>
                match applyBin op lv rv with
                | .ok v => .ok (some (v, lf || rf))
                | .error er => .error er
      | .callE f args kws =>
          if whitelist.contains f then
            match argsF fuel env false args with
            | .error er => .error er
            | .ok (avs, af) =>
              match kwargsF fuel env af kws with
              | .error er => .error er
              | .ok (kvs, kf) =>
                match builtinApply f avs kvs with
                | .ok v => .ok (some (v, kf))
                | .error er => .error er
          else .ok none
      | .cond c t f =>
        match evalF fuel env c with
        | .error er => .error er
        | .ok tc =>
          match unpackPy tc with
          | .error er => .error er
          | .ok (cv, cf) =>
            match evalF fuel env (if truthy cv then t else f) with
            | .error er => .error er
            | .ok tr =>
              match unpackPy tr with
              | .error er => .error er
              | .ok (rv, rf) => .ok (some (rv, rf || cf))
      | .cmp l ops rs =>
        match evalF fuel env l with
        | .error er => .error er
        | .ok tl =>
          match unpackPy tl with
          | .error er => .error er
          | .ok (lv, lf) => cmpChainF fuel env lv lf ops rs
      | .boolop .andK vs => andF fuel env false vs
      | .boolop .orK vs => orF fuel env false vs
      | .unop _ _ => .error (.runtimeError ("unhandled node"))
      | .num _ => .error (.runtimeError ("unhandled node"))
      | .fnum _ => .error (.runtimeError ("unhandled node"))
      | .strE _ => .error (.runtimeError ("unhandled node"))
      | .boolc _ => .error (.runtimeError ("unhandled node"))
      | .nonec => .error (.runtimeError ("unhandled node"))

/-- The `for child_node in ast.iter_child_nodes(node)` loop of the
container branch: `None` sub-results are skipped (`if not tmp: continue`),
otherwise the value is appended and `has_refs` is ASSIGNED (not or-ed) the
child's flag — the source's `has_refs = tmp[1]`. -/
def childrenF : Nat → List Obj → Bool → List Expr → Except Err (List Obj × Bool)
  | 0, _, _, _ => .error .outOfFuel
  | _ + 1, _, f, [] => .ok ([], f)
  | fuel + 1, env, f, e :: es =>
    match evalF fuel env e with
    | .error er => .error er
    | .ok none => childrenF fuel env f es
    | .ok (some (v, fe)) =>
      match childrenF fuel env fe es with
      | .error er => .error er
      | .ok (vs, fr) => .ok (v :: vs, fr)

/-- The positional-argument loop of the `Call` branch: every argument is
unpacked (so a `None` sub-result raises `TypeError`) and `has_refs` is
or-accumulated. -/
def argsF : Nat → List Obj → Bool → List Expr → Except Err (List Obj × Bool)
  | 0, _, _, _ => .error .outOfFuel
  | _ + 1, _, f, [] => .ok ([], f)
  | fuel + 1, env, f, e :: es =>
    match evalF fuel env e with
    | .error er => .error er
    | .ok none => .error (.typeError ("cannot unpack non-iterable NoneType object"))
    | .ok (some (v, fe)) =>
      match argsF fuel env (f || fe) es with
      | .error er => .error er
      | .ok (vs, fr) => .ok (v :: vs, fr)

/-- The keyword-argument loop of the `Call` branch. -/
def kwargsF : Nat → List Obj → Bool → List (String × Expr) →
    Except Err (List (String × Obj) × Bool)
  | 0, _, _, _ => .error .outOfFuel
  | _ + 1, _, f, [] => .ok ([], f)
  | fuel + 1, env, f, (k, e) :: es =>
    match evalF fuel env e with
    | .error er => .error er
    | .ok none => .error (.typeError ("cannot unpack non-iterable NoneType object"))
    | .ok (some (v, fe)) =>
      match kwargsF fuel env (f || fe) es with
      | .error er => .error er
      | .ok (vs, fr) => .ok ((k, v) :: vs, fr)

/-- The `for ast_op, ast_right in zip(node.ops, node.comparators)` loop of
the `Compare` branch: short-circuits to `False` at the first failing step,
yields `True` when the (possibly empty remainder of the) chain passes. -/
def cmpChainF : Nat → List Obj → Obj → Bool → List CmpOp → List Expr → EvalOut
  | 0, _, _, _, _, _ => .error .outOfFuel
  | fuel + 1, env, left, has, op :: ops, r :: rs =>
    (match evalF fuel env r with
    | .error er => .error er
    | .ok tmp =>
      match unpackPy tmp with
      | .error er => .error er
      | .ok (rv, rf) =>
        match applyCmp op left rv with
        | .error er => .error er
        | .ok true => cmpChainF fuel env rv (has || rf) ops rs
        | .ok false => .ok (some (.vbool false, has || rf)))
  | _ + 1, _, _, has, _, _ => .ok (some (.vbool true, has))

/-- The `ast.And` loop of the `BoolOp` branch: short-circuits to the
boolean `False` at the first falsy operand, else returns the boolean
`True`; `has_refs` accumulates only over the operands actually
evaluated. -/
def andF : Nat → List Obj → Bool → List Expr → EvalOut
  | 0, _, _, _ => .error .outOfFuel
  | _ + 1, _, has, [] => .ok (some (.vbool true, has))
  | fuel + 1, env, has, e :: es =>
    match evalF fuel env e with
    | .error er => .error er
    | .ok tmp =>
      match unpackPy tmp with
      | .error er => .error er
      | .ok (v, vf) =>
        if truthy v then andF fuel env (has || vf) es
        else .ok (some (.vbool false, has || vf))

/-- The `ast.Or` loop of the `BoolOp` branch, dual to `andF`. -/
def orF : Nat → List Obj → Bool → List Expr → EvalOut
  | 0, _, _, _ => .error .outOfFuel
  | _ + 1, _, has, [] => .ok (some (.vbool false, has))
  | fuel + 1, env, has, e :: es =>
    match evalF fuel env e with
    | .error er => .error er
    | .ok tmp =>
      match unpackPy tmp with
      | .error er => .error er
      | .ok (v, vf) =>
        if truthy v then .ok (some (.vbool true, has || vf))
        else orF fuel env (has || vf) es

end

/-- The state of an `Option`: its ast node (`_acp_ast_node`) and the cache
slot the shared `LazyEval` descriptor keys by the option instance
(absent entry = Empty, present = Cached). -/
structure OptSt : Type where
  node : Expr
  cache : Option Obj

/-- `LazyEval.__get__`: a cached value is returned as is; otherwise the
node is evaluated against the scope chain and the result is cached exactly
when the evaluation reported no external references.  The third component
instruments whether `_acp_eval` was invoked by this read. -/
def readOpt (fuel : Nat) (env : List Obj) (st : OptSt) :
    Except Err (Obj × OptSt × Bool) :=
  match st.cache with
  | some v => .ok (v, st, false)
  | none =>
    match evalF fuel env st.node with
    | .error er => .error er
    | .ok none => .error (.typeError ("cannot unpack non-iterable NoneType object"))
    | .ok (some (v, hasRefs)) =>
      .ok (v, { st with cache := if hasRefs then none else some v }, true)

/-- `LazyEval.__set__` with a non-ast value: the static value goes straight
into the cache; the stored ast node is untouched. -/
def writeStatic (st : OptSt) (v : Obj) : OptSt :=
  { st with cache := some v }

/-- `LazyEval.__set__` with an ast node: the node is replaced and the cache
entry deleted. -/
def writeExpr (_st : OptSt) (e : Expr) : OptSt :=
  { node := e, cache := none }

/-- The single-quote character. -/
def tickChar : Char := Char.ofNat 39

/-- The double-quote character. -/
def dquoteChar : Char := Char.ofNat 34

/-- The newline character. -/
def nlChar : Char := Char.ofNat 10

/-- The backslash character. -/
def backslashChar : Char := Char.ofNat 92

/-- Tail of the scan for an occurrence of `c` not directly preceded by a
backslash, with `prev` the character before the current position — the
regex `(?<!\\)c` of `quote_str`. -/
def hasUnescapedAux (prev : Char) (c : Char) : List Char → Bool
  | [] => false
  | x :: xs => (x == c && prev != backslashChar) || hasUnescapedAux x c xs

/-- Does `s` contain an occurrence of `c` that is not directly preceded by
a backslash?  (The first character of `s` has no preceding character and
always counts.) -/
def hasUnescaped (c : Char) (s : String) : Bool :=
  match s.data with
  | [] => false
  | x :: xs => x == c || hasUnescapedAux x c xs

/-- `quote_str` of `ast_to_src.py`: raise `RuntimeError` when the string
holds both an unescaped single and an unescaped double quote; otherwise
pick the single quote unless an unescaped single quote occurs, triple the
chosen delimiter when the string contains a newline, and wrap. -/
def quoteStr (s : String) : Except Err String :=
  let tick := hasUnescaped tickChar s
  let dbl := hasUnescaped dquoteChar s
  if tick && dbl then
    .error (.runtimeError ("could not determine suitable string quotes"))
  else
    let q := if !tick then String.singleton tickChar else String.singleton dquoteChar
    let q := if s.data.contains nlChar then q ++ q ++ q else q
    .ok (q ++ s ++ q)

/-- The `ops` rendering table for unary operators in `ast_to_src`
(note the source renders `ast.Not` as `!`, which Python cannot re-parse). -/
def uopStr : UOp → String
  | .invert => "~"
  | .notOp => "!"
  | .uadd => "+"
  | .usub => "-"

/-- The `ops` rendering table for binary operators in `ast_to_src`. -/
def bopStr : BOp → String
  | .add => "+"
  | .sub => "-"
  | .mult => "*"
  | .div => "/"
  | .floorDiv => "//"
  | .mod => "%"
  | .pow => "**"
  | .lshift => "<<"
  | .rshift => ">>"
  | .bitOr => "|"
  | .bitXor => "^"
  | .bitAnd => "&"

/-- The `astOp2Str` rendering table for comparison operators. -/
def cmpStr : CmpOp → String
  | .isOp => "is"
  | .isNot => "is not"
  | .inOp => "in"
  | .notIn => "not in"
  | .lt => "<"
  | .gt => ">"
  | .le => "<="
  | .ge => ">="
  | .eq => "=="
  | .ne => "!="

mutual

/-- `ast_to_src(ast_node)` of `ast_to_src.py`.  Numbers render via `str`
(for the rational stand-ins of float literals the rendering of `Rat` is
used, a notational divergence no claim touches); strings via `quote_str`;
binary, boolean and comparison expressions parenthesize the whole
subexpression; conditionals do not; a one-element tuple keeps a trailing
comma; a dict renders `{ k: v, ... }` with single-space padding and `{}`
when empty. -/
def astToSrcF : Nat → Expr → Except Err String
  | 0, _ => .error .outOfFuel
  | _ + 1, .num n => .ok (toString n)
  | _ + 1, .fnum q => .ok (toString q)
  | fuel + 1, .unop op e => do
      let s ← astToSrcF fuel e
      .ok (uopStr op ++ s)
  | fuel + 1, .binop op l r => do
      let ls ← astToSrcF fuel l
      let rs ← astToSrcF fuel r
      .ok ("(" ++ ls ++ " " ++ bopStr op ++ " " ++ rs ++ ")")
  | _ + 1, .ref attrs => .ok (String.intercalate (".") attrs)
  | _ + 1, .strE s => quoteStr s
  | fuel + 1, .callE f args kws => do
      let argStrs ← srcListF fuel args
      let kwStrs ← srcKwListF fuel kws
      .ok (f ++ "(" ++ String.intercalate (", ") (argStrs ++ kwStrs) ++ ")")
  | fuel + 1, .listE es => do
      let strs ← srcListF fuel es
      .ok ("[" ++ String.intercalate (", ") strs ++ "]")
  | fuel + 1, .tupleE [e] => do
      let s ← astToSrcF fuel e
      .ok ("(" ++ s ++ ",)")
  | fuel + 1, .tupleE es => do
      let strs ← srcListF fuel es
      .ok ("(" ++ String.intercalate (", ") strs ++ ")")
  | fuel + 1, .dictE ks vs => do
      let kStrs ← srcListF fuel ks
      let vStrs ← srcListF fuel vs
      match kStrs with
      | [] => .ok ("\x7b\x7d")
      | _ =>
        let body := String.intercalate (", ")
          ((kStrs.zip vStrs).map (fun p => p.1 ++ ": " ++ p.2))
        .ok ("\x7b " ++ body ++ " \x7d")
  | fuel + 1, .cond c t f => do
      let ts ← astToSrcF fuel t
      let cs ← astToSrcF fuel c
      let fs ← astToSrcF fuel f
      .ok (ts ++ " if " ++ cs ++ " else " ++ fs)
  | fuel + 1, .boolop k vs => do
      let strs ← srcListF fuel vs
      let sep := match k with
        | .andK => " and "
        | .orK => " or "
      .ok ("(" ++ String.intercalate sep strs ++ ")")
  | fuel + 1, .cmp l ops rs => do
      let ls ← astToSrcF fuel l
      let rStrs ← srcListF fuel rs
      let steps := (ops.zip rStrs).map (fun p => " " ++ cmpStr p.1 ++ " " ++ p.2)
      .ok ("(" ++ ls ++ String.join steps ++ ")")
  | _ + 1, .boolc b => .ok (if b then ("True") else ("False"))
  | _ + 1, .nonec => .ok ("None")

/-- Render each expression of a list. -/
def srcListF : Nat → List Expr → Except Err (List String)
  | 0, _ => .error .outOfFuel
  | _ + 1, [] => .ok []
  | fuel + 1, e :: es => do
      let s ← astToSrcF fuel e
      let rest ← srcListF fuel es
      .ok (s :: rest)

/-- Render keyword arguments as `name=value`. -/
def srcKwListF : Nat → List (String × Expr) → Except Err (List String)
  | 0, _ => .error .outOfFuel
  | _ + 1, [] => .ok []
  | fuel + 1, (k, e) :: es => do
      let s ← astToSrcF fuel e
      let rest ← srcKwListF fuel es
      .ok ((k ++ "=" ++ s) :: rest)

end

mutual

/-- Modelled from the spec: the property "the expression contains a
`Reference` node" that gates caching in the claims (a `Reference` node is a
`Name`/`Attribute` chain, i.e. the `ref` constructor).  This is a spec-side
notion used to compare the claims against the evaluator. -/
def containsReference : Expr → Bool
  | .ref _ => true
  | .num _ => false
  | .fnum _ => false
  | .strE _ => false
  | .boolc _ => false
  | .nonec => false
  | .unop _ e => containsReference e
  | .binop _ l r => containsReference l || containsReference r
  | .boolop _ vs => containsRefList vs
  | .cmp l _ rs => containsReference l || containsRefList rs
  | .cond c t f => containsReference c || containsReference t || containsReference f
  | .listE es => containsRefList es
  | .tupleE es => containsRefList es
  | .dictE ks vs => containsRefList ks || containsRefList vs
  | .callE _ args kws => containsRefList args || containsRefKw kws

/-- Some expression of the list contains a `Reference` node. -/
def containsRefList : List Expr → Bool
  | [] => false
  | e :: es => containsReference e || containsRefList es

/-- Some keyword value contains a `Reference` node. -/
def containsRefKw : List (String × Expr) → Bool
  | [] => false
  | (_, e) :: es => containsReference e || containsRefKw es

end

/-- Joint purity lemma over the mutual evaluator functions: an expression
with no `Reference` node evaluates (when it evaluates to a pair) with
`has_refs = false`, and the loop helpers preserve the carried flag when
their expressions are reference-free. -/
theorem pureFlagAux (fuel : Nat) :
    (∀ env e v f, containsReference e = false →
       evalF fuel env e = .ok (some (v, f)) → f = false) ∧
    (∀ env f₀ es vs fr, containsRefList es = false → f₀ = false →
       childrenF fuel env f₀ es = .ok (vs, fr) → fr = false) ∧
    (∀ env f₀ es vs fr, containsRefList es = false →
       argsF fuel env f₀ es = .ok (vs, fr) → fr = f₀) ∧
    (∀ env f₀ es vs fr, containsRefKw es = false →
       kwargsF fuel env f₀ es = .ok (vs, fr) → fr = f₀) ∧
    (∀ env left has ops rs v f, containsRefList rs = false →
       cmpChainF fuel env left has ops rs = .ok (some (v, f)) → f = has) ∧
    (∀ env has es v f, containsRefList es = false →
       andF fuel env has es = .ok (some (v, f)) → f = has) ∧
    (∀ env has es v f, containsRefList es = false →
       orF fuel env has es = .ok (some (v, f)) → f = has) := by
  induction fuel with
  | zero =>
    refine ⟨?_, ?_, ?_, ?_, ?_, ?_, ?_⟩ <;> intros <;>
      simp_all [evalF, childrenF, argsF, kwargsF, cmpChainF, andF, orF]
  | succ fuel ih =>
    obtain ⟨ihE, ihC, ihA, ihK, ihCmp, ihAnd, ihOr⟩ := ih
    have hE : ∀ env e v f, containsReference e = false →
        evalF (fuel + 1) env e = .ok (some (v, f)) → f = false := by
      intro env e v f hp he
      cases e with
      | num n => simp [evalF, litEvalF] at he; exact he.2
      | fnum q => simp [evalF, litEvalF] at he; exact he.2
      | strE s => simp [evalF, litEvalF] at he; exact he.2
      | boolc b => simp [evalF, litEvalF] at he; exact he.2
      | nonec => simp [evalF, litEvalF] at he; exact he.2
      | ref attrs => simp [containsReference] at hp
      | unop op e =>
        rw [evalF] at he
        cases hlit : litEvalF (fuel + 1) (.unop op e) with
        | ok w => simp [hlit] at he; exact he.2
        | error le =>
          cases le with
          | hard er => simp [hlit] at he
          | notLit => simp [hlit] at he
      | listE es =>
        simp only [containsReference] at hp
        rw [evalF] at he
        cases hlit : litEvalF (fuel + 1) (.listE es) with
        | ok w => simp [hlit] at he; exact he.2
        | error le =>
          cases le with
          | hard er => simp [hlit] at he
          | notLit =>
            simp only [hlit] at he
            cases hc : childrenF fuel env false es with
            | error er => simp [hc] at he
            | ok p =>
              obtain ⟨vs, fr⟩ := p
              simp [hc] at he
              exact he.2 ▸ ihC env false es vs fr hp rfl hc
      | tupleE es =>
        simp only [containsReference] at hp
        rw [evalF] at he
        cases hlit : litEvalF (fuel + 1) (.tupleE es) with
        | ok w => simp [hlit] at he; exact he.2
        | error le =>
          cases le with
          | hard er => simp [hlit] at he
          | notLit =>
            simp only [hlit] at he
            cases hc : childrenF fuel env false es with
            | error er => simp [hc] at he
            | ok p =>
              obtain ⟨vs, fr⟩ := p
              simp [hc] at he
              exact he.2 ▸ ihC env false es vs fr hp rfl hc
      | dictE ks vls =>
        simp only [containsReference, Bool.or_eq_false_iff] at hp
        rw [evalF] at he
        cases hlit : litEvalF (fuel + 1) (.dictE ks vls) with
        | ok w => simp [hlit] at he; exact he.2
        | error le =>
          cases le with
          | hard er => simp [hlit] at he
          | notLit =>
            simp only [hlit] at he
            cases hc : childrenF fuel env false ks with
            | error er => simp [hc] at he
            | ok p =>
              obtain ⟨kvals, f1⟩ := p
              have hf1 : f1 = false := ihC env false ks kvals f1 hp.1 rfl hc
              subst hf1
              cases hc2 : childrenF fuel env false vls with
              | error er => simp [hc, hc2] at he
              | ok p2 =>
                obtain ⟨vvals, f2⟩ := p2
                simp [hc, hc2] at he
                exact he.2 ▸ ihC env false vls vvals f2 hp.2 rfl hc2
      | binop op l r =>
        simp only [containsReference, Bool.or_eq_false_iff] at hp
        rw [evalF] at he
        simp only [litEvalF] at he
        cases hl : evalF fuel env l with
        | error er => simp [hl] at he
        | ok tl =>
          cases tl with
          | none => simp [hl, unpackPy] at he
          | some pl =>
            obtain ⟨lv, lf⟩ := pl
            have hlf : lf = false := ihE env l lv lf hp.1 hl
            cases hr : evalF fuel env r with
            | error er => simp [hl, hr, unpackPy] at he
            | ok tr =>
              cases tr with
              | none => simp [hl, hr, unpackPy] at he
              | some pr =>
                obtain ⟨rv, rf⟩ := pr
                have hrf : rf = false := ihE env r rv rf hp.2 hr
                cases hb : applyBin op lv rv with
                | error er => simp [hl, hr, hb, unpackPy] at he
                | ok w =>
                  simp [hl, hr, hb, unpackPy] at he
                  subst hlf hrf
                  simp [he.2.symm]
      | callE fn args kws =>
        simp only [containsReference, Bool.or_eq_false_iff] at hp
        rw [evalF] at he
        simp only [litEvalF] at he
        by_cases hw : whitelist.contains fn
        · rw [if_pos hw] at he
          cases ha : argsF fuel env false args with
          | error er => simp [ha] at he
          | ok pa =>
            obtain ⟨avs, af⟩ := pa
            have haf : af = false := ihA env false args avs af hp.1 ha
            subst haf
            cases hk : kwargsF fuel env false kws with
            | error er => simp [ha, hk] at he
            | ok pk =>
              obtain ⟨kvs, kf⟩ := pk
              have hkf : kf = false := ihK env false kws kvs kf hp.2 hk
              cases hbi : builtinApply fn avs kvs with
              | error er => simp [ha, hk, hbi] at he
              | ok w =>
                simp [ha, hk, hbi] at he
                exact he.2 ▸ hkf
        · rw [if_neg hw] at he
          simp at he
      | cond c t f2 =>
        simp only [containsReference, Bool.or_eq_false_iff] at hp
        rw [evalF] at he
        simp only [litEvalF] at he
        cases hc : evalF fuel env c with
        | error er => simp [hc] at he
        | ok tc =>
          cases tc with
          | none => simp [hc, unpackPy] at he
          | some pc =>
            obtain ⟨cv, cf⟩ := pc
            have hcf : cf = false := ihE env c cv cf hp.1.1 hc
            cases hb : evalF fuel env (if truthy cv then t else f2) with
            | error er => simp [hc, hb, unpackPy] at he
            | ok tb =>
              cases tb with
              | none => simp [hc, hb, unpackPy] at he
              | some pb =>
                obtain ⟨rv, rf⟩ := pb
                have hrf : rf = false := by
                  cases htr : truthy cv with
                  | true =>
                    rw [htr] at hb
                    exact ihE env t rv rf hp.1.2 (by simpa using hb)
                  | false =>
                    rw [htr] at hb
                    exact ihE env f2 rv rf hp.2 (by simpa using hb)
                simp [hc, hb, unpackPy] at he
                subst hcf hrf
                simp [he.2.symm]
      | cmp l ops rs =>
        simp only [containsReference, Bool.or_eq_false_iff] at hp
        rw [evalF] at he
        simp only [litEvalF] at he
        cases hl : evalF fuel env l with
        | error er => simp [hl] at he
        | ok tl =>
          cases tl with
          | none => simp [hl, unpackPy] at he
          | some pl =>
            obtain ⟨lv, lf⟩ := pl
            have hlf : lf = false := ihE env l lv lf hp.1 hl
            simp only [hl, unpackPy] at he
            exact hlf ▸ ihCmp env lv lf ops rs v f hp.2 he
      | boolop k vs =>
        simp only [containsReference] at hp
        cases k with
        | andK =>
          rw [evalF] at he
          simp only [litEvalF] at he
          exact ihAnd env false vs v f hp he
        | orK =>
          rw [evalF] at he
          simp only [litEvalF] at he
          exact ihOr env false vs v f hp he
    refine ⟨hE, ?_, ?_, ?_, ?_, ?_, ?_⟩
    · intro env f₀ es vs fr hp h0 hc
      cases es with
      | nil => simp [childrenF] at hc; exact hc.2 ▸ h0
      | cons e es =>
        simp only [containsRefList, Bool.or_eq_false_iff] at hp
        rw [childrenF] at hc
        cases he : evalF fuel env e with
        | error er => simp [he] at hc
        | ok te =>
          cases te with
          | none =>
            simp only [he] at hc
            exact ihC env f₀ es vs fr hp.2 h0 hc
          | some pe =>
            obtain ⟨v, fe⟩ := pe
            have hfe : fe = false := ihE env e v fe hp.1 he
            simp only [he] at hc
            cases hr : childrenF fuel env fe es with
            | error er => simp [hr] at hc
            | ok pr =>
              obtain ⟨vs2, fr2⟩ := pr
              simp [hr] at hc
              exact hc.2 ▸ ihC env fe es vs2 fr2 hp.2 hfe hr
    · intro env f₀ es vs fr hp ha
      cases es with
      | nil => simp [argsF] at ha; exact ha.2 ▸ rfl
      | cons e es =>
        simp only [containsRefList, Bool.or_eq_false_iff] at hp
        rw [argsF] at ha
        cases he : evalF fuel env e with
        | error er => simp [he] at ha
        | ok te =>
          cases te with
          | none => simp [he] at ha
          | some pe =>
            obtain ⟨v, fe⟩ := pe
            have hfe : fe = false := ihE env e v fe hp.1 he
            simp only [he] at ha
            cases hr : argsF fuel env (f₀ || fe) es with
            | error er => simp [hr] at ha
            | ok pr =>
              obtain ⟨vs2, fr2⟩ := pr
              simp [hr] at ha
              have := ihA env (f₀ || fe) es vs2 fr2 hp.2 hr
              subst hfe
              simpa [this] using ha.2.symm
    · intro env f₀ es vs fr hp hk
      cases es with
      | nil => simp [kwargsF] at hk; exact hk.2 ▸ rfl
      | cons ke es =>
        obtain ⟨k, e⟩ := ke
        simp only [containsRefKw, Bool.or_eq_false_iff] at hp
        rw [kwargsF] at hk
        cases he : evalF fuel env e with
        | error er => simp [he] at hk
        | ok te =>
          cases te with
          | none => simp [he] at hk
          | some pe =>
            obtain ⟨v, fe⟩ := pe
            have hfe : fe = false := ihE env e v fe hp.1 he
            simp only [he] at hk
            cases hr : kwargsF fuel env (f₀ || fe) es with
            | error er => simp [hr] at hk
            | ok pr =>
              obtain ⟨vs2, fr2⟩ := pr
              simp [hr] at hk
              have := ihK env (f₀ || fe) es vs2 fr2 hp.2 hr
              subst hfe
              simpa [this] using hk.2.symm
    · intro env left has ops rs v f hp hch
      cases ops with
      | nil => simp [cmpChainF] at hch; exact hch.2.symm
      | cons op ops =>
        cases rs with
        | nil => simp [cmpChainF] at hch; exact hch.2.symm
        | cons r rs =>
          simp only [containsRefList, Bool.or_eq_false_iff] at hp
          rw [cmpChainF] at hch
          cases he : evalF fuel env r with
          | error er => simp [he] at hch
          | ok te =>
            cases te with
            | none => simp [he, unpackPy] at hch
            | some pe =>
              obtain ⟨rv, rf⟩ := pe
              have hrf : rf = false := ihE env r rv rf hp.1 he
              simp only [he, unpackPy] at hch
              cases hcmp : applyCmp op left rv with
              | error er => simp [hcmp] at hch
              | ok b =>
                cases b with
                | true =>
                  simp only [hcmp] at hch
                  have := ihCmp env rv (has || rf) ops rs v f hp.2 hch
                  subst hrf
                  simpa using this
                | false =>
                  simp [hcmp] at hch
                  subst hrf
                  simpa using hch.2.symm
    · intro env has es v f hp hand
      cases es with
      | nil => simp [andF] at hand; exact hand.2.symm
      | cons e es =>
        simp only [containsRefList, Bool.or_eq_false_iff] at hp
        rw [andF] at hand
        cases he : evalF fuel env e with
        | error er => simp [he] at hand
        | ok te =>
          cases te with
          | none => simp [he, unpackPy] at hand
          | some pe =>
            obtain ⟨w, wf⟩ := pe
            have hwf : wf = false := ihE env e w wf hp.1 he
            simp only [he, unpackPy] at hand
            cases ht : truthy w with
            | true =>
              simp only [ht, if_true] at hand
              have := ihAnd env (has || wf) es v f hp.2 hand
              subst hwf
              simpa using this
            | false =>
              simp [ht] at hand
              subst hwf
              simpa using hand.2.symm
    · intro env has es v f hp hor
      cases es with
      | nil => simp [orF] at hor; exact hor.2.symm
      | cons e es =>
        simp only [containsRefList, Bool.or_eq_false_iff] at hp
        rw [orF] at hor
        cases he : evalF fuel env e with
        | error er => simp [he] at hor
        | ok te =>
          cases te with
          | none => simp [he, unpackPy] at hor
          | some pe =>
            obtain ⟨w, wf⟩ := pe
            have hwf : wf = false := ihE env e w wf hp.1 he
            simp only [he, unpackPy] at hor
            cases ht : truthy w with
            | true =>
              simp [ht] at hor
              subst hwf
              simpa using hor.2.symm
            | false =>
              simp only [ht, if_false] at hor
              have := ihOr env (has || wf) es v f hp.2 hor
              subst hwf
              simpa using this

/-- Fuel monotonicity of the `literal_eval` model: a result other than the
out-of-fuel artifact is stable under more fuel. -/
theorem litMonoAux (fuel : Nat) :
    (∀ e r, litEvalF fuel e = r → r ≠ .error (.hard .outOfFuel) →
       litEvalF (fuel + 1) e = r) ∧
    (∀ es r, litListF fuel es = r → r ≠ .error (.hard .outOfFuel) →
       litListF (fuel + 1) es = r) ∧
    (∀ ks vs r, litDictF fuel ks vs = r → r ≠ .error (.hard .outOfFuel) →
       litDictF (fuel + 1) ks vs = r) := by
  induction fuel with
  | zero =>
    refine ⟨?_, ?_, ?_⟩ <;> intros <;> simp_all [litEvalF, litListF, litDictF]
  | succ fuel ih =>
    obtain ⟨ihE, ihL, ihD⟩ := ih
    refine ⟨?_, ?_, ?_⟩
    · intro e r hr hno
      cases e with
      | num n => simpa [litEvalF] using hr
      | fnum q => simpa [litEvalF] using hr
      | strE s => simpa [litEvalF] using hr
      | boolc b => simpa [litEvalF] using hr
      | nonec => simpa [litEvalF] using hr
      | ref attrs => simpa [litEvalF] using hr
      | binop op l r2 => simpa [litEvalF] using hr
      | boolop k vs => simpa [litEvalF] using hr
      | cmp l ops rs => simpa [litEvalF] using hr
      | cond c t f => simpa [litEvalF] using hr
      | callE f args kws => simpa [litEvalF] using hr
      | unop op e =>
        rw [litEvalF] at hr
        rw [litEvalF]
        cases hl : litEvalF fuel e with
        | error er =>
          simp only [hl] at hr
          rw [← hr] at hno
          rw [ihE e _ hl hno]
          exact hr
        | ok w =>
          simp only [hl] at hr
          rw [ihE e _ hl (by simp)]
          exact hr
      | listE es =>
        rw [litEvalF] at hr
        rw [litEvalF]
        cases hl : litListF fuel es with
        | error er =>
          simp only [hl] at hr
          rw [← hr] at hno
          rw [ihL es _ hl (by simpa [Bind.bind, Except.bind] using hno)]
          exact hr
        | ok ws =>
          simp only [hl] at hr
          rw [ihL es _ hl (by simp)]
          exact hr
      | tupleE es =>
        rw [litEvalF] at hr
        rw [litEvalF]
        cases hl : litListF fuel es with
        | error er =>
          simp only [hl] at hr
          rw [← hr] at hno
          rw [ihL es _ hl (by simpa [Bind.bind, Except.bind] using hno)]
          exact hr
        | ok ws =>
          simp only [hl] at hr
          rw [ihL es _ hl (by simp)]
          exact hr
      | dictE ks vls =>
        rw [litEvalF] at hr
        rw [litEvalF]
        cases hl : litDictF fuel ks vls with
        | error er =>
          simp only [hl] at hr
          rw [← hr] at hno
          rw [ihD ks vls _ hl (by simpa [Bind.bind, Except.bind] using hno)]
          exact hr
        | ok ws =>
          simp only [hl] at hr
          rw [ihD ks vls _ hl (by simp)]
          exact hr
    · intro es r hr hno
      cases es with
      | nil => simpa [litListF] using hr
      | cons e es =>
        rw [litListF] at hr
        rw [litListF]
        cases hl : litEvalF fuel e with
        | error er =>
          simp only [hl] at hr
          rw [← hr] at hno
          rw [ihE e _ hl (by simpa [Bind.bind, Except.bind] using hno)]
          exact hr
        | ok w =>
          simp only [hl] at hr
          rw [ihE e _ hl (by simp)]
          cases ht : litListF fuel es with
          | error er =>
            simp only [ht] at hr
            rw [← hr] at hno
            rw [ihL es _ ht (by simpa [Bind.bind, Except.bind] using hno)]
            exact hr
          | ok ws =>
            simp only [ht] at hr
            rw [ihL es _ ht (by simp)]
            exact hr
    · intro ks vs r hr hno
      cases ks with
      | nil => simpa [litDictF] using hr
      | cons k ks =>
        cases vs with
        | nil => simpa [litDictF] using hr
        | cons v vs =>
          rw [litDictF] at hr
          rw [litDictF]
          cases hk : litEvalF fuel k with
          | error er =>
            simp only [hk] at hr
            rw [← hr] at hno
            rw [ihE k _ hk (by simpa [Bind.bind, Except.bind] using hno)]
            exact hr
          | ok kw =>
            simp only [hk] at hr
            rw [ihE k _ hk (by simp)]
            cases hv : litEvalF fuel v with
            | error er =>
              simp only [hv] at hr
              rw [← hr] at hno
              rw [ihE v _ hv (by simpa [Bind.bind, Except.bind] using hno)]
              exact hr
            | ok vw =>
              simp only [hv] at hr
              rw [ihE v _ hv (by simp)]
              by_cases hh : hashable kw
              · cases ht : litDictF fuel ks vs with
                | error er =>
                  simp only [ht] at hr
                  rw [← hr] at hno
                  rw [ihD ks vs _ ht (by simpa [Bind.bind, Except.bind, hh] using hno)]
                  exact hr
                | ok ws =>
                  simp only [ht] at hr
                  rw [ihD ks vs _ ht (by simp)]
                  exact hr
              · simp only [Bind.bind, Except.bind] at hr ⊢
                rw [if_neg hh] at hr ⊢
                exact hr

/-- Fuel monotonicity of the evaluator: a result other than the out-of-fuel
artifact is stable under more fuel. -/
theorem evalMonoAux (fuel : Nat) :
    (∀ env e r, evalF fuel env e = r → r ≠ .error .outOfFuel →
       evalF (fuel + 1) env e = r) ∧
    (∀ env f₀ es r, childrenF fuel env f₀ es = r → r ≠ .error .outOfFuel →
       childrenF (fuel + 1) env f₀ es = r) ∧
    (∀ env f₀ es r, argsF fuel env f₀ es = r → r ≠ .error .outOfFuel →
       argsF (fuel + 1) env f₀ es = r) ∧
    (∀ env f₀ es r, kwargsF fuel env f₀ es = r → r ≠ .error .outOfFuel →
       kwargsF (fuel + 1) env f₀ es = r) ∧
    (∀ env left has ops rs r, cmpChainF fuel env left has ops rs = r →
       r ≠ .error .outOfFuel → cmpChainF (fuel + 1) env left has ops rs = r) ∧
    (∀ env has es r, andF fuel env has es = r → r ≠ .error .outOfFuel →
       andF (fuel + 1) env has es = r) ∧
    (∀ env has es r, orF fuel env has es = r → r ≠ .error .outOfFuel →
       orF (fuel + 1) env has es = r) := by
  induction fuel with
  | zero =>
    refine ⟨?_, ?_, ?_, ?_, ?_, ?_, ?_⟩ <;> intros <;>
      simp_all [evalF, childrenF, argsF, kwargsF, cmpChainF, andF, orF]
  | succ fuel ih =>
    obtain ⟨ihE, ihC, ihA, ihK, ihCmp, ihAnd, ihOr⟩ := ih
    have hE : ∀ env e r, evalF (fuel + 1) env e = r → r ≠ .error .outOfFuel →
        evalF (fuel + 1 + 1) env e = r := by
      intro env e r hr hno
      cases e with
      | num n => simpa [evalF, litEvalF] using hr
      | fnum q => simpa [evalF, litEvalF] using hr
      | strE s => simpa [evalF, litEvalF] using hr
      | boolc b => simpa [evalF, litEvalF] using hr
      | nonec => simpa [evalF, litEvalF] using hr
      | ref attrs => simpa [evalF, litEvalF] using hr
      | unop op e =>
        rw [evalF] at hr
        rw [evalF]
        cases hlit : litEvalF (fuel + 1) (.unop op e) with
        | ok w =>
          simp only [hlit] at hr
          rw [(litMonoAux (fuel + 1)).1 _ _ hlit (by simp)]
          exact hr
        | error le =>
          cases le with
          | notLit =>
            simp only [hlit] at hr
            rw [(litMonoAux (fuel + 1)).1 _ _ hlit (by simp)]
            exact hr
          | hard er =>
            simp only [hlit] at hr
            rw [← hr] at hno
            rw [(litMonoAux (fuel + 1)).1 _ _ hlit (by simpa using hno)]
            exact hr
      | listE es =>
        rw [evalF] at hr
        rw [evalF]
        cases hlit : litEvalF (fuel + 1) (.listE es) with
        | ok w =>
          simp only [hlit] at hr
          rw [(litMonoAux (fuel + 1)).1 _ _ hlit (by simp)]
          exact hr
        | error le =>
          cases le with
          | hard er =>
            simp only [hlit] at hr
            rw [← hr] at hno
            rw [(litMonoAux (fuel + 1)).1 _ _ hlit (by simpa using hno)]
            exact hr
          | notLit =>
            rw [(litMonoAux (fuel + 1)).1 _ _ hlit (by simp)]
            simp only [hlit] at hr
            cases hc : childrenF fuel env false es with
            | error er =>
              simp only [hc] at hr
              rw [← hr] at hno
              rw [ihC env false es _ hc (by simpa using hno)]
              exact hr
            | ok p =>
              simp only [hc] at hr
              rw [ihC env false es _ hc (by simp)]
              exact hr
      | tupleE es =>
        rw [evalF] at hr
        rw [evalF]
        cases hlit : litEvalF (fuel + 1) (.tupleE es) with
        | ok w =>
          simp only [hlit] at hr
          rw [(litMonoAux (fuel + 1)).1 _ _ hlit (by simp)]
          exact hr
        | error le =>
          cases le with
          | hard er =>
            simp only [hlit] at hr
            rw [← hr] at hno
            rw [(litMonoAux (fuel + 1)).1 _ _ hlit (by simpa using hno)]
            exact hr
          | notLit =>
            rw [(litMonoAux (fuel + 1)).1 _ _ hlit (by simp)]
            simp only [hlit] at hr
            cases hc : childrenF fuel env false es with
            | error er =>
              simp only [hc] at hr
              rw [← hr] at hno
              rw [ihC env false es _ hc (by simpa using hno)]
              exact hr
            | ok p =>
              simp only [hc] at hr
              rw [ihC env false es _ hc (by simp)]
              exact hr
      | dictE ks vls =>
        rw [evalF] at hr
        rw [evalF]
        cases hlit : litEvalF (fuel + 1) (.dictE ks vls) with
        | ok w =>
          simp only [hlit] at hr
          rw [(litMonoAux (fuel + 1)).1 _ _ hlit (by simp)]
          exact hr
        | error le =>
          cases le with
          | hard er =>
            simp only [hlit] at hr
            rw [← hr] at hno
            rw [(litMonoAux (fuel + 1)).1 _ _ hlit (by simpa using hno)]
            exact hr
          | notLit =>
            rw [(litMonoAux (fuel + 1)).1 _ _ hlit (by simp)]
            simp only [hlit] at hr
            cases hc : childrenF fuel env false ks with
            | error er =>
              simp only [hc] at hr
              rw [← hr] at hno
              rw [ihC env false ks _ hc (by simpa using hno)]
              exact hr
            | ok p =>
              obtain ⟨kvals, f1⟩ := p
              simp only [hc] at hr
              simp only [ihC env false ks _ hc (by simp)]
              cases hc2 : childrenF fuel env f1 vls with
              | error er =>
                simp only [hc2] at hr
                rw [← hr] at hno
                simp only [ihC env f1 vls _ hc2 (by simpa using hno)]
                exact hr
              | ok p2 =>
                simp only [hc2] at hr
                simp only [ihC env f1 vls _ hc2 (by simp)]
                exact hr
      | binop op l r2 =>
        rw [evalF] at hr
        rw [evalF]
        simp only [litEvalF] at hr ⊢
        cases hl : evalF fuel env l with
        | error er =>
          simp only [hl] at hr
          rw [← hr] at hno
          rw [ihE env l _ hl (by simpa using hno)]
          exact hr
        | ok tl =>
          simp only [hl] at hr
          rw [ihE env l _ hl (by simp)]
          cases tl with
          | none => simpa [unpackPy] using hr
          | some pl =>
            obtain ⟨lv, lf⟩ := pl
            simp only [unpackPy] at hr ⊢
            cases hr2 : evalF fuel env r2 with
            | error er =>
              simp only [hr2] at hr
              rw [← hr] at hno
              rw [ihE env r2 _ hr2 (by simpa using hno)]
              exact hr
            | ok tr =>
              simp only [hr2] at hr
              rw [ihE env r2 _ hr2 (by simp)]
              exact hr
      | callE fn args kws =>
        rw [evalF] at hr
        rw [evalF]
        simp only [litEvalF] at hr ⊢
        by_cases hw : whitelist.contains fn
        · rw [if_pos hw] at hr ⊢
          cases ha : argsF fuel env false args with
          | error er =>
            simp only [ha] at hr
            rw [← hr] at hno
            rw [ihA env false args _ ha (by simpa using hno)]
            exact hr
          | ok pa =>
            obtain ⟨avs, af⟩ := pa
            simp only [ha] at hr
            simp only [ihA env false args _ ha (by simp)]
            cases hk : kwargsF fuel env af kws with
            | error er =>
              simp only [hk] at hr
              rw [← hr] at hno
              simp only [ihK env af kws _ hk (by simpa using hno)]
              exact hr
            | ok pk =>
              simp only [hk] at hr
              simp only [ihK env af kws _ hk (by simp)]
              exact hr
        · rw [if_neg hw] at hr ⊢
          exact hr
      | cond c t f2 =>
        rw [evalF] at hr
        rw [evalF]
        simp only [litEvalF] at hr ⊢
        cases hc : evalF fuel env c with
        | error er =>
          simp only [hc] at hr
          rw [← hr] at hno
          rw [ihE env c _ hc (by simpa using hno)]
          exact hr
        | ok tc =>
          simp only [hc] at hr
          rw [ihE env c _ hc (by simp)]
          cases tc with
          | none => simpa [unpackPy] using hr
          | some pc =>
            obtain ⟨cv, cf⟩ := pc
            simp only [unpackPy] at hr ⊢
            cases hb : evalF fuel env (if truthy cv then t else f2) with
            | error er =>
              simp only [hb] at hr
              rw [← hr] at hno
              rw [ihE env (if truthy cv then t else f2) _ hb (by simpa using hno)]
              exact hr
            | ok tb =>
              simp only [hb] at hr
              rw [ihE env (if truthy cv then t else f2) _ hb (by simp)]
              exact hr
      | cmp l ops rs =>
        rw [evalF] at hr
        rw [evalF]
        simp only [litEvalF] at hr ⊢
        cases hl : evalF fuel env l with
        | error er =>
          simp only [hl] at hr
          rw [← hr] at hno
          rw [ihE env l _ hl (by simpa using hno)]
          exact hr
        | ok tl =>
          simp only [hl] at hr
          rw [ihE env l _ hl (by simp)]
          cases tl with
          | none => simpa [unpackPy] using hr
          | some pl =>
            obtain ⟨lv, lf⟩ := pl
            simp only [unpackPy] at hr ⊢
            exact ihCmp env lv lf ops rs r hr hno
      | boolop k vs =>
        cases k with
        | andK =>
          rw [evalF] at hr
          rw [evalF]
          simp only [litEvalF] at hr ⊢
          exact ihAnd env false vs r hr hno
        | orK =>
          rw [evalF] at hr
          rw [evalF]
          simp only [litEvalF] at hr ⊢
          exact ihOr env false vs r hr hno
    refine ⟨hE, ?_, ?_, ?_, ?_, ?_, ?_⟩
    · intro env f₀ es r hr hno
      cases es with
      | nil => simpa [childrenF] using hr
      | cons e es =>
        rw [childrenF] at hr
        rw [childrenF]
        cases he : evalF fuel env e with
        | error er =>
          simp only [he] at hr
          rw [← hr] at hno
          rw [ihE env e _ he (by simpa using hno)]
          exact hr
        | ok te =>
          simp only [he] at hr
          rw [ihE env e _ he (by simp)]
          cases te with
          | none => exact ihC env f₀ es r hr hno
          | some pe =>
            obtain ⟨v, fe⟩ := pe
            cases hre : childrenF fuel env fe es with
            | error er =>
              simp only [hre] at hr
              rw [← hr] at hno
              simp only [ihC env fe es _ hre (by simpa using hno)]
              exact hr
            | ok pr =>
              simp only [hre] at hr
              simp only [ihC env fe es _ hre (by simp)]
              exact hr
    · intro env f₀ es r hr hno
      cases es with
      | nil => simpa [argsF] using hr
      | cons e es =>
        rw [argsF] at hr
        rw [argsF]
        cases he : evalF fuel env e with
        | error er =>
          simp only [he] at hr
          rw [← hr] at hno
          rw [ihE env e _ he (by simpa using hno)]
          exact hr
        | ok te =>
          simp only [he] at hr
          rw [ihE env e _ he (by simp)]
          cases te with
          | none => exact hr
          | some pe =>
            obtain ⟨v, fe⟩ := pe
            cases hre : argsF fuel env (f₀ || fe) es with
            | error er =>
              simp only [hre] at hr
              rw [← hr] at hno
              simp only [ihA env (f₀ || fe) es _ hre (by simpa using hno)]
              exact hr
            | ok pr =>
              simp only [hre] at hr
              simp only [ihA env (f₀ || fe) es _ hre (by simp)]
              exact hr
    · intro env f₀ es r hr hno
      cases es with
      | nil => simpa [kwargsF] using hr
      | cons ke es =>
        obtain ⟨k, e⟩ := ke
        rw [kwargsF] at hr
        rw [kwargsF]
        cases he : evalF fuel env e with
        | error er =>
          simp only [he] at hr
          rw [← hr] at hno
          rw [ihE env e _ he (by simpa using hno)]
          exact hr
        | ok te =>
          simp only [he] at hr
          rw [ihE env e _ he (by simp)]
          cases te with
          | none => exact hr
          | some pe =>
            obtain ⟨v, fe⟩ := pe
            cases hre : kwargsF fuel env (f₀ || fe) es with
            | error er =>
              simp only [hre] at hr
              rw [← hr] at hno
              simp only [ihK env (f₀ || fe) es _ hre (by simpa using hno)]
              exact hr
            | ok pr =>
              simp only [hre] at hr
              simp only [ihK env (f₀ || fe) es _ hre (by simp)]
              exact hr
    · intro env left has ops rs r hr hno
      cases ops with
      | nil => simpa [cmpChainF] using hr
      | cons op ops =>
        cases rs with
        | nil => simpa [cmpChainF] using hr
        | cons re rs =>
          rw [cmpChainF] at hr
          rw [cmpChainF]
          cases he : evalF fuel env re with
          | error er =>
            simp only [he] at hr
            rw [← hr] at hno
            rw [ihE env re _ he (by simpa using hno)]
            exact hr
          | ok te =>
            simp only [he] at hr
            rw [ihE env re _ he (by simp)]
            cases te with
            | none => simpa [unpackPy] using hr
            | some pe =>
              obtain ⟨rv, rf⟩ := pe
              simp only [unpackPy] at hr ⊢
              cases hcmp : applyCmp op left rv with
              | error er => simpa [hcmp] using hr
              | ok b =>
                cases b with
                | true =>
                  simp only [hcmp] at hr ⊢
                  exact ihCmp env rv (has || rf) ops rs r hr hno
                | false => simpa [hcmp] using hr
    · intro env has es r hr hno
      cases es with
      | nil => simpa [andF] using hr
      | cons e es =>
        rw [andF] at hr
        rw [andF]
        cases he : evalF fuel env e with
        | error er =>
          simp only [he] at hr
          rw [← hr] at hno
          rw [ihE env e _ he (by simpa using hno)]
          exact hr
        | ok te =>
          simp only [he] at hr
          rw [ihE env e _ he (by simp)]
          cases te with
          | none => simpa [unpackPy] using hr
          | some pe =>
            obtain ⟨w, wf⟩ := pe
            simp only [unpackPy] at hr ⊢
            cases ht : truthy w with
            | true =>
              simp only [ht, if_true] at hr ⊢
              exact ihAnd env (has || wf) es r hr hno
            | false => simpa [ht] using hr
    · intro env has es r hr hno
      cases es with
      | nil => simpa [orF] using hr
      | cons e es =>
        rw [orF] at hr
        rw [orF]
        cases he : evalF fuel env e with
        | error er =>
          simp only [he] at hr
          rw [← hr] at hno
          rw [ihE env e _ he (by simpa using hno)]
          exact hr
        | ok te =>
          simp only [he] at hr
          rw [ihE env e _ he (by simp)]
          cases te with
          | none => simpa [unpackPy] using hr
          | some pe =>
            obtain ⟨w, wf⟩ := pe
            simp only [unpackPy] at hr ⊢
            cases ht : truthy w with
            | true => simpa [ht] using hr
            | false =>
              simp only [ht, if_false] at hr ⊢
              exact ihOr env (has || wf) es r hr hno

/-- Fuel monotonicity, `≤` form, for the main evaluator. -/
theorem evalLe {fuel fuel' : Nat} (hle : fuel ≤ fuel') (env : List Obj)
    (e : Expr) (r : EvalOut) (hr : evalF fuel env e = r)
    (hno : r ≠ .error .outOfFuel) : evalF fuel' env e = r := by
  induction fuel', hle using Nat.le_induction with
  | base => exact hr
  | succ n hn ih => exact (evalMonoAux n).1 env e r ih hno

/-- C1, counterexample: the option `x = 1 if True else y` has an expression
that CONTAINS a `Reference` node (`y`, in the untaken branch), yet the
first read caches the value `1` — the evaluation reported
`has_refs = false` because the untaken branch was never evaluated — and the
second read returns the cached value without re-invoking the evaluator
(third component `false`), contradicting the claim that every Option whose
expression contains a Reference node is re-evaluated on every read. -/
theorem C1_cached_despite_contained_reference :
    containsReference (.cond (.boolc true) (.num 1) (.ref ["y"])) = true ∧
    readOpt 9 [] ⟨.cond (.boolc true) (.num 1) (.ref ["y"]), none⟩ =
      .ok (.vint 1, ⟨.cond (.boolc true) (.num 1) (.ref ["y"]), some (.vint 1)⟩, true) ∧
    readOpt 9 [] ⟨.cond (.boolc true) (.num 1) (.ref ["y"]), some (.vint 1)⟩ =
      .ok (.vint 1, ⟨.cond (.boolc true) (.num 1) (.ref ["y"]), some (.vint 1)⟩, false) :=
  ⟨rfl, rfl, rfl⟩

/-- C1, amended: caching is gated by the `has_refs` flag the evaluation
actually reports, not by the syntactic presence of a `Reference` node:
(i) a read that finds a cached value returns it without invoking the
evaluator; (ii) a read with an empty cache evaluates the node and caches
the result exactly when the evaluation reported `has_refs = false` (so a
read whose evaluation reported `true` leaves the cache empty and every such
read re-evaluates); (iii) evaluating a `Reference` node always reports
`has_refs = true`; (iv) an expression that contains no `Reference` node
always reports `has_refs = false`, hence is evaluated at most once. -/
theorem C1_purity_gated_caching_amended :
    (∀ fuel env st v, st.cache = some v →
       readOpt fuel env st = .ok (v, st, false)) ∧
    (∀ fuel env st v f, st.cache = none →
       evalF fuel env st.node = .ok (some (v, f)) →
       readOpt fuel env st = .ok (v, ⟨st.node, if f then none else some v⟩, true)) ∧
    (∀ fuel env attrs v f,
       evalF fuel env (.ref attrs) = .ok (some (v, f)) → f = true) ∧
    (∀ fuel env e v f, containsReference e = false →
       evalF fuel env e = .ok (some (v, f)) → f = false) := by
  refine ⟨?_, ?_, ?_, ?_⟩
  · intro fuel env st v hc
    unfold readOpt
    rw [hc]
  · intro fuel env st v f hc he
    unfold readOpt
    rw [hc, he]
  · intro fuel env attrs v f he
    cases fuel with
    | zero => simp [evalF] at he
    | succ fuel =>
      rw [evalF] at he
      simp only [litEvalF] at he
      cases hr : resolveRef env attrs with
      | error er => simp [hr] at he
      | ok w => simp [hr] at he; exact he.2
  · intro fuel env e v f hp he
    exact (pureFlagAux fuel).1 env e v f hp he

/-- C1, witness: the amended theorem applied at concrete inputs — a cached
read returns the cache untouched, an empty-cache read of the pure literal
list `[1]` evaluates and caches, a read of the reference `x` (against a
scope defining `x = 5`) evaluates without caching, and the reference and
purity flags are as stated. -/
theorem C1_purity_gated_caching_witness :
    readOpt 9 [] ⟨.num 3, some (.vint 7)⟩ =
      .ok (.vint 7, ⟨.num 3, some (.vint 7)⟩, false) ∧
    readOpt 9 [] ⟨.listE [.num 1], none⟩ =
      .ok (.vlist [.vint 1], ⟨.listE [.num 1], some (.vlist [.vint 1])⟩, true) ∧
    readOpt 9 [Obj.vsec [("x", Obj.vint 5)]] ⟨.ref ["x"], none⟩ =
      .ok (.vint 5, ⟨.ref ["x"], none⟩, true) ∧
    (true : Bool) = true ∧ (false : Bool) = false :=
  ⟨C1_purity_gated_caching_amended.1 9 [] ⟨.num 3, some (.vint 7)⟩ (.vint 7) rfl,
   C1_purity_gated_caching_amended.2.1 9 [] ⟨.listE [.num 1], none⟩
     (.vlist [.vint 1]) false rfl rfl,
   C1_purity_gated_caching_amended.2.1 9 [Obj.vsec [("x", Obj.vint 5)]]
     ⟨.ref ["x"], none⟩ (.vint 5) true rfl rfl,
   C1_purity_gated_caching_amended.2.2.1 9 [Obj.vsec [("x", Obj.vint 5)]]
     ["x"] (.vint 5) true rfl,
   C1_purity_gated_caching_amended.2.2.2 9 [] (.num 3) (.vint 3) false rfl rfl⟩

/-- C2, evaluation of the failing input: the list literal `[x, 1]`, where
`x` is a reference resolving to `5`, evaluates with `has_external_ref =
false` — the flag of its LAST element (`has_refs = tmp[1]` assigns instead
of or-ing) — although the sub-evaluation of the element `x` reports
`has_external_ref = true`, so the claimed OR across sub-evaluations would
be `true`. -/
theorem C2_container_flag_is_last_child :
    evalF 9 [Obj.vsec [("x", Obj.vint 5)]] (.listE [.ref ["x"], .num 1]) =
      .ok (some (.vlist [.vint 5, .vint 1], false)) ∧
    evalF 9 [Obj.vsec [("x", Obj.vint 5)]] (.ref ["x"]) =
      .ok (some (.vint 5, true)) ∧
    (true || false) = true :=
  ⟨rfl, rfl, rfl⟩

/-- C3, evaluation of the failing inputs: the dict literal `{1: x}` (with
`x` referencing `5`) does not evaluate to a dictionary at all — the `Dict`
arm of the container branch returns the accumulated flat Python list of
evaluated keys followed by evaluated values — and the dict literal
`{[x]: 2}`, whose evaluated key is an unhashable list, raises no
TypeError-kind error (no dictionary is ever constructed on this path).
Only the pure-literal path through `ast.literal_eval` builds a real dict
and checks hashability. -/
theorem C3_dict_with_reference_evaluates_to_flat_list :
    evalF 9 [Obj.vsec [("x", Obj.vint 5)]] (.dictE [.num 1] [.ref ["x"]]) =
      .ok (some (.vlist [.vint 1, .vint 5], true)) ∧
    evalF 9 [Obj.vsec [("x", Obj.vint 5)]]
        (.dictE [.listE [.ref ["x"]]] [.num 2]) =
      .ok (some (.vlist [.vlist [.vint 5], .vint 2], false)) ∧
    evalF 9 [] (.dictE [.num 1] [.num 2]) =
      .ok (some (.vdict [(.vint 1, .vint 2)], false)) ∧
    evalF 9 [] (.dictE [.listE []] [.num 2]) =
      .error (.typeError ("unhashable type")) :=
  ⟨rfl, rfl, rfl, rfl⟩

/-- C8, counterexample: a `UnaryOp` whose operand is a `Reference` node is
not evaluated at all — `_acp_eval` has no `ast.UnaryOp` branch, so after
`ast.literal_eval` fails the node falls to the final `else` and raises
`RuntimeError("unhandled node")` — instead of applying the operator to the
resolved operand with `has_external_ref = true` as the claim states.  The
same happens for `not` and `~` even on literals, which `literal_eval`
rejects. -/
theorem C8_unop_on_reference_is_unhandled :
    evalF 9 [Obj.vsec [("x", Obj.vint 5)]] (.unop .usub (.ref ["x"])) =
      .error (.runtimeError ("unhandled node")) ∧
    evalF 9 [] (.unop .notOp (.boolc true)) =
      .error (.runtimeError ("unhandled node")) ∧
    evalF 9 [] (.unop .invert (.num 3)) =
      .error (.runtimeError ("unhandled node")) :=
  ⟨rfl, rfl, rfl⟩

/-- C8, amended: a `UnaryOp` node evaluates only through the
`ast.literal_eval` shortcut — negation or unary plus of a numeric literal
yields the literal value with `has_external_ref = false` — and every
`UnaryOp` that `literal_eval` rejects (in particular any whose operand
contains a `Reference`) fails with a RuntimeError-kind unhandled-node
error. -/
theorem C8_unop_literal_only :
    (∀ fuel env n, evalF (fuel + 2) env (.unop .usub (.num n)) =
       .ok (some (.vint (-n), false))) ∧
    (∀ fuel env n, evalF (fuel + 2) env (.unop .uadd (.num n)) =
       .ok (some (.vint n, false))) ∧
    (∀ fuel env op e, litEvalF (fuel + 1) (.unop op e) = .error .notLit →
       evalF (fuel + 1) env (.unop op e) =
         .error (.runtimeError ("unhandled node"))) := by
  refine ⟨?_, ?_, ?_⟩
  · intro fuel env n
    rw [evalF]
    simp [litEvalF]
  · intro fuel env n
    rw [evalF]
    simp [litEvalF]
  · intro fuel env op e hlit
    rw [evalF]
    simp [hlit]

/-- C8, witness: the amended theorem applied at concrete inputs. -/
theorem C8_unop_literal_only_witness :
    evalF 9 [] (.unop .usub (.num 4)) = .ok (some (.vint (-4), false)) ∧
    evalF 9 [] (.unop .uadd (.num 4)) = .ok (some (.vint 4, false)) ∧
    evalF 9 [] (.unop .invert (.num 4)) =
      .error (.runtimeError ("unhandled node")) :=
  ⟨C8_unop_literal_only.1 7 [] 4,
   C8_unop_literal_only.2.1 7 [] 4,
   C8_unop_literal_only.2.2 8 [] .invert (.num 4) rfl⟩

/-- C5, counterexample: in the scope chain `[A, root]` where `A` contains a
child `S` (an empty section) and `root` contains both `S.k = 1` and `A`,
resolving `S.k` from `A` finds the FIRST SEGMENT `S` in the nearest scope
`A`, yet the full path fails there and resolution moves outward anyway,
returning `1` from the root — the claim says the nearest scope containing
the first segment commits (so this lookup would have to fail). -/
theorem C5_first_segment_does_not_commit :
    lookupName [("S", Obj.vsec [])] ("S") = some (Obj.vsec []) ∧
    getattrPath (Obj.vsec [("S", Obj.vsec [])]) ["S", "k"] = .error () ∧
    resolveRef
      [Obj.vsec [("S", Obj.vsec [])],
       Obj.vsec [("S", Obj.vsec [("k", Obj.vint 1)]),
                 ("A", Obj.vsec [("S", Obj.vsec [])])]]
      ["S", "k"] = .ok (.vint 1) :=
  ⟨rfl, rfl, rfl⟩

/-- C5, amended: `_acp_resolve_reference` commits to the nearest enclosing
scope in which the WHOLE dotted path resolves: (i) an exhausted chain fails
with `AttributeError(ref)`; (ii) a scope where the full traversal succeeds
wins; (iii) if any step of the full traversal fails in the current scope,
resolution moves to the parent scope; (iv) resolution fails exactly when
the full path resolves in no scope of the chain. -/
theorem C5_full_path_resolution_amended :
    (∀ attrs, resolveRef [] attrs =
       .error (.attrError (String.intercalate (".") attrs))) ∧
    (∀ s rest attrs v, getattrPath s attrs = .ok v →
       resolveRef (s :: rest) attrs = .ok v) ∧
    (∀ s rest attrs, getattrPath s attrs = .error () →
       resolveRef (s :: rest) attrs = resolveRef rest attrs) ∧
    (∀ chain attrs,
       resolveRef chain attrs =
         .error (.attrError (String.intercalate (".") attrs)) ↔
       ∀ s ∈ chain, getattrPath s attrs = .error ()) := by
  refine ⟨?_, ?_, ?_, ?_⟩
  · intro attrs
    rfl
  · intro s rest attrs v h
    rw [resolveRef]
    simp [h]
  · intro s rest attrs h
    rw [resolveRef]
    simp [h]
  · intro chain attrs
    induction chain with
    | nil => simp [resolveRef]
    | cons s rest ih =>
      rw [resolveRef]
      cases h : getattrPath s attrs with
      | ok v => simp [h]
      | error u =>
        cases u
        simp only [h, ih, List.mem_cons]
        constructor
        · intro hall t ht
          cases ht with
          | inl hts => exact hts ▸ h
          | inr htr => exact hall t htr
        · intro hall t ht
          exact hall t (Or.inr ht)

/-- C5, witness: the amended theorem applied at concrete inputs — the
spec's own shadowing example (`A.x = 1`, `A.B.x = 2`: resolving `x` from
`B` yields `2` because the full path resolves in the nearest scope) and the
outward move of the counterexample chain. -/
theorem C5_full_path_resolution_witness :
    resolveRef [Obj.vsec [("x", Obj.vint 2)],
                Obj.vsec [("x", Obj.vint 1),
                          ("B", Obj.vsec [("x", Obj.vint 2)])]] ["x"] =
      .ok (.vint 2) ∧
    resolveRef [Obj.vsec [("S", Obj.vsec [])],
                Obj.vsec [("S", Obj.vsec [("k", Obj.vint 1)])]] ["S", "k"] =
      resolveRef [Obj.vsec [("S", Obj.vsec [("k", Obj.vint 1)])]] ["S", "k"] ∧
    (resolveRef [Obj.vsec [("S", Obj.vsec [])]] ["S", "k"] =
       .error (.attrError ("S.k")) ↔
     ∀ s ∈ [Obj.vsec [("S", Obj.vsec [])]], getattrPath s ["S", "k"] = .error ()) :=
  ⟨C5_full_path_resolution_amended.2.1 _ _ ["x"] (.vint 2) rfl,
   C5_full_path_resolution_amended.2.2.1 _ _ ["S", "k"] rfl,
   C5_full_path_resolution_amended.2.2.2 _ ["S", "k"]⟩

/-- C6: the `IfExp` branch evaluates the condition and then only the
selected branch: (i)/(ii) the result does not depend on the unselected
branch at all (so an unresolvable reference there cannot raise); (iii)/(iv)
the value is the selected branch's value and `has_external_ref` is the OR
of the selected branch's flag and the condition's flag only. -/
theorem C6_conditional_short_circuit :
    (∀ fuel env c t f f2 v fc, evalF fuel env c = .ok (some (v, fc)) →
       truthy v = true →
       evalF (fuel + 1) env (.cond c t f) = evalF (fuel + 1) env (.cond c t f2)) ∧
    (∀ fuel env c t t2 f v fc, evalF fuel env c = .ok (some (v, fc)) →
       truthy v = false →
       evalF (fuel + 1) env (.cond c t f) = evalF (fuel + 1) env (.cond c t2 f)) ∧
    (∀ fuel env c t f v fc vt ft, evalF fuel env c = .ok (some (v, fc)) →
       truthy v = true → evalF fuel env t = .ok (some (vt, ft)) →
       evalF (fuel + 1) env (.cond c t f) = .ok (some (vt, ft || fc))) ∧
    (∀ fuel env c t f v fc vf ff2, evalF fuel env c = .ok (some (v, fc)) →
       truthy v = false → evalF fuel env f = .ok (some (vf, ff2)) →
       evalF (fuel + 1) env (.cond c t f) = .ok (some (vf, ff2 || fc))) := by
  refine ⟨?_, ?_, ?_, ?_⟩
  · intro fuel env c t f f2 v fc hc htr
    simp only [evalF, litEvalF, hc, unpackPy, htr, if_true]
  · intro fuel env c t t2 f v fc hc htr
    simp [evalF, litEvalF, hc, unpackPy, htr]
  · intro fuel env c t f v fc vt ft hc htr ht
    simp only [evalF, litEvalF, hc, unpackPy, htr, if_true, ht]
  · intro fuel env c t f v fc vf ff2 hc htr hf
    simp [evalF, litEvalF, hc, unpackPy, htr, hf]

/-- C6, witness: with condition `True`, branch `1`, and an unselected
branch that is an unresolvable reference (`nope` resolves nowhere and on
its own evaluates to `AttributeError`), the conditional evaluates to `1`
with `has_external_ref = false` and equals the same conditional with the
unselected branch replaced. -/
theorem C6_conditional_short_circuit_witness :
    evalF 9 [] (.cond (.boolc true) (.num 1) (.ref ["nope"])) =
      evalF 9 [] (.cond (.boolc true) (.num 1) (.num 2)) ∧
    evalF 9 [] (.cond (.boolc true) (.num 1) (.ref ["nope"])) =
      .ok (some (.vint 1, false)) ∧
    evalF 8 [] (.ref ["nope"]) = .error (.attrError ("nope")) :=
  ⟨C6_conditional_short_circuit.1 8 [] (.boolc true) (.num 1) (.ref ["nope"])
     (.num 2) (.vbool true) false rfl rfl,
   C6_conditional_short_circuit.2.2.1 8 [] (.boolc true) (.num 1)
     (.ref ["nope"]) (.vbool true) false (.vint 1) false rfl rfl rfl,
   rfl⟩

/-- The positional-argument loop on a list whose elements all evaluate to
pairs: values are collected in order and the carried flag is or-accumulated
with every element's flag. -/
theorem argsFlagOr (fuel : Nat) (env : List Obj) :
    ∀ es ps, List.Forall₂ (fun e (p : Obj × Bool) =>
        evalF fuel env e = .ok (some p)) es ps →
    ∀ F, fuel ≤ F → ∀ f₀,
      argsF (F + es.length + 1) env f₀ es =
        .ok (ps.map Prod.fst, ps.foldl (fun a p => a || p.2) f₀) := by
  intro es ps h
  induction h with
  | nil =>
    intro F hF f₀
    rw [argsF]
    rfl
  | cons he hrest ih =>
    intro F hF f₀
    rename_i e p es ps
    obtain ⟨pv, pf⟩ := p
    simp only [List.length_cons]
    have hN : F + (es.length + 1) + 1 = (F + es.length + 1) + 1 := by omega
    rw [hN, argsF,
        evalLe (by omega : fuel ≤ F + es.length + 1) env e _ he (by simp)]
    simp only [ih F hF (f₀ || pf)]
    rfl

/-- The keyword-argument loop on a list whose values all evaluate to pairs:
names are kept, values collected in order, and the carried flag is
or-accumulated with every value's flag. -/
theorem kwargsFlagOr (fuel : Nat) (env : List Obj) :
    ∀ es ps, List.Forall₂ (fun (ke : String × Expr) (p : String × Obj × Bool) =>
        ke.1 = p.1 ∧ evalF fuel env ke.2 = .ok (some p.2)) es ps →
    ∀ F, fuel ≤ F → ∀ f₀,
      kwargsF (F + es.length + 1) env f₀ es =
        .ok (ps.map (fun p => (p.1, p.2.1)),
             ps.foldl (fun a p => a || p.2.2) f₀) := by
  intro es ps h
  induction h with
  | nil =>
    intro F hF f₀
    rw [kwargsF]
    rfl
  | cons he hrest ih =>
    intro F hF f₀
    rename_i ke p es ps
    obtain ⟨k, e⟩ := ke
    obtain ⟨pk, pv, pf⟩ := p
    obtain ⟨hk, hv⟩ := he
    simp only [List.length_cons]
    have hN : F + (es.length + 1) + 1 = (F + es.length + 1) + 1 := by omega
    rw [hN, kwargsF,
        evalLe (by omega : fuel ≤ F + es.length + 1) env e _ hv (by simp)]
    simp only [ih F hF (f₀ || pf)]
    rw [show k = pk from hk]
    rfl

/-- The `ast.And` loop on operands that all evaluate truthy: the boolean
`True` is returned with the or-accumulation of every operand's flag. -/
theorem andAllTruthy (fuel : Nat) (env : List Obj) :
    ∀ es ps, List.Forall₂ (fun e (p : Obj × Bool) =>
        evalF fuel env e = .ok (some p) ∧ truthy p.1 = true) es ps →
    ∀ F, fuel ≤ F → ∀ has,
      andF (F + es.length + 1) env has es =
        .ok (some (.vbool true, ps.foldl (fun a p => a || p.2) has)) := by
  intro es ps h
  induction h with
  | nil =>
    intro F hF has
    rw [andF]
    rfl
  | cons he hrest ih =>
    intro F hF has
    rename_i e p es ps
    obtain ⟨pv, pf⟩ := p
    obtain ⟨hv, ht⟩ := he
    simp only [List.length_cons]
    have hN : F + (es.length + 1) + 1 = (F + es.length + 1) + 1 := by omega
    rw [hN, andF,
        evalLe (by omega : fuel ≤ F + es.length + 1) env e _ hv (by simp)]
    simp only [unpackPy] at ht ⊢
    simp only [ht, if_true, ih F hF (has || pf)]
    rfl

/-- The `ast.And` loop short-circuits at the first falsy operand: the
boolean `False` is returned with the flags accumulated up to and including
the falsy operand, and the remaining operands are never evaluated (the
result does not depend on `rest`). -/
theorem andShortCircuit (fuel : Nat) (env : List Obj) :
    ∀ es ps, List.Forall₂ (fun e (p : Obj × Bool) =>
        evalF fuel env e = .ok (some p) ∧ truthy p.1 = true) es ps →
    ∀ e0 w wf rest, evalF fuel env e0 = .ok (some (w, wf)) →
      truthy w = false →
    ∀ F, fuel ≤ F → ∀ has,
      andF (F + es.length + 1) env has (es ++ e0 :: rest) =
        .ok (some (.vbool false,
                   (ps.foldl (fun a p => a || p.2) has) || wf)) := by
  intro es ps h
  induction h with
  | nil =>
    intro e0 w wf rest he0 hw F hF has
    simp only [List.length_nil, List.nil_append, Nat.add_zero]
    rw [andF, evalLe hF env e0 _ he0 (by simp)]
    simp [unpackPy, hw]
  | cons he hrest ih =>
    intro e0 w wf rest he0 hw F hF has
    rename_i e p es ps
    obtain ⟨pv, pf⟩ := p
    obtain ⟨hv, ht⟩ := he
    simp only [List.length_cons, List.cons_append]
    have hN : F + (es.length + 1) + 1 = (F + es.length + 1) + 1 := by omega
    rw [hN, andF,
        evalLe (by omega : fuel ≤ F + es.length + 1) env e _ hv (by simp)]
    simp only [unpackPy]
    simp only [ht, if_true, ih e0 w wf rest he0 hw F hF (has || pf)]
    rfl

/-- The `ast.Or` loop on operands that all evaluate falsy: the boolean
`False` is returned with every operand's flag accumulated. -/
theorem orNoneTruthy (fuel : Nat) (env : List Obj) :
    ∀ es ps, List.Forall₂ (fun e (p : Obj × Bool) =>
        evalF fuel env e = .ok (some p) ∧ truthy p.1 = false) es ps →
    ∀ F, fuel ≤ F → ∀ has,
      orF (F + es.length + 1) env has es =
        .ok (some (.vbool false, ps.foldl (fun a p => a || p.2) has)) := by
  intro es ps h
  induction h with
  | nil =>
    intro F hF has
    rw [orF]
    rfl
  | cons he hrest ih =>
    intro F hF has
    rename_i e p es ps
    obtain ⟨pv, pf⟩ := p
    obtain ⟨hv, ht⟩ := he
    simp only [List.length_cons]
    have hN : F + (es.length + 1) + 1 = (F + es.length + 1) + 1 := by omega
    rw [hN, orF,
        evalLe (by omega : fuel ≤ F + es.length + 1) env e _ hv (by simp)]
    simp only [unpackPy]
    simp only [ht, if_false, ih F hF (has || pf)]
    rfl

/-- The `ast.Or` loop short-circuits at the first truthy operand: the
boolean `True` is returned and the remaining operands are never
evaluated. -/
theorem orShortCircuit (fuel : Nat) (env : List Obj) :
    ∀ es ps, List.Forall₂ (fun e (p : Obj × Bool) =>
        evalF fuel env e = .ok (some p) ∧ truthy p.1 = false) es ps →
    ∀ e0 w wf rest, evalF fuel env e0 = .ok (some (w, wf)) →
      truthy w = true →
    ∀ F, fuel ≤ F → ∀ has,
      orF (F + es.length + 1) env has (es ++ e0 :: rest) =
        .ok (some (.vbool true,
                   (ps.foldl (fun a p => a || p.2) has) || wf)) := by
  intro es ps h
  induction h with
  | nil =>
    intro e0 w wf rest he0 hw F hF has
    simp only [List.length_nil, List.nil_append, Nat.add_zero]
    rw [orF, evalLe hF env e0 _ he0 (by simp)]
    simp [unpackPy, hw]
  | cons he hrest ih =>
    intro e0 w wf rest he0 hw F hF has
    rename_i e p es ps
    obtain ⟨pv, pf⟩ := p
    obtain ⟨hv, ht⟩ := he
    simp only [List.length_cons, List.cons_append]
    have hN : F + (es.length + 1) + 1 = (F + es.length + 1) + 1 := by omega
    rw [hN, orF,
        evalLe (by omega : fuel ≤ F + es.length + 1) env e _ hv (by simp)]
    simp only [unpackPy]
    simp only [ht, if_false, ih e0 w wf rest he0 hw F hF (has || pf)]
    rfl

/-- C4, counterexample: `BoolOp(and, [1, 2])` evaluates to the Python
boolean `True`, not to the last operand's value `2`; `BoolOp(or, [0, 5])`
evaluates to `True`, not to the first truthy operand's value `5`.  The
`BoolOp` branch returns the literals `True`/`False`, never an operand. -/
theorem C4_boolop_returns_booleans :
    evalF 9 [] (.boolop .andK [.num 1, .num 2]) =
      .ok (some (.vbool true, false)) ∧
    Obj.vbool true ≠ Obj.vint 2 ∧
    evalF 9 [] (.boolop .orK [.num 0, .num 5]) =
      .ok (some (.vbool true, false)) ∧
    Obj.vbool true ≠ Obj.vint 5 :=
  ⟨rfl, fun h => Obj.noConfusion h, rfl, fun h => Obj.noConfusion h⟩

/-- C4, amended: `BoolOp` results are Python booleans: under `and`, if all
operands evaluate truthy the result is the boolean `True` with the OR of
all operand flags, and the first falsy operand short-circuits to the
boolean `False` (the remaining operands are not evaluated); under `or`,
the first truthy operand short-circuits to the boolean `True`, and if no
operand is truthy the result is the boolean `False`. -/
theorem C4_boolop_amended :
    (∀ fuel env vs ps F, fuel ≤ F →
       List.Forall₂ (fun e (p : Obj × Bool) =>
         evalF fuel env e = .ok (some p) ∧ truthy p.1 = true) vs ps →
       evalF (F + vs.length + 1 + 1) env (.boolop .andK vs) =
         .ok (some (.vbool true, ps.foldl (fun a p => a || p.2) false))) ∧
    (∀ fuel env es ps e0 w wf rest F, fuel ≤ F →
       List.Forall₂ (fun e (p : Obj × Bool) =>
         evalF fuel env e = .ok (some p) ∧ truthy p.1 = true) es ps →
       evalF fuel env e0 = .ok (some (w, wf)) → truthy w = false →
       evalF (F + es.length + 1 + 1) env (.boolop .andK (es ++ e0 :: rest)) =
         .ok (some (.vbool false,
                    (ps.foldl (fun a p => a || p.2) false) || wf))) ∧
    (∀ fuel env es ps e0 w wf rest F, fuel ≤ F →
       List.Forall₂ (fun e (p : Obj × Bool) =>
         evalF fuel env e = .ok (some p) ∧ truthy p.1 = false) es ps →
       evalF fuel env e0 = .ok (some (w, wf)) → truthy w = true →
       evalF (F + es.length + 1 + 1) env (.boolop .orK (es ++ e0 :: rest)) =
         .ok (some (.vbool true,
                    (ps.foldl (fun a p => a || p.2) false) || wf))) ∧
    (∀ fuel env vs ps F, fuel ≤ F →
       List.Forall₂ (fun e (p : Obj × Bool) =>
         evalF fuel env e = .ok (some p) ∧ truthy p.1 = false) vs ps →
       evalF (F + vs.length + 1 + 1) env (.boolop .orK vs) =
         .ok (some (.vbool false, ps.foldl (fun a p => a || p.2) false))) := by
  refine ⟨?_, ?_, ?_, ?_⟩
  · intro fuel env vs ps F hF h
    rw [evalF]
    simp only [litEvalF]
    exact andAllTruthy fuel env vs ps h F hF false
  · intro fuel env es ps e0 w wf rest F hF h he0 hw
    rw [evalF]
    simp only [litEvalF]
    exact andShortCircuit fuel env es ps h e0 w wf rest he0 hw F hF false
  · intro fuel env es ps e0 w wf rest F hF h he0 hw
    rw [evalF]
    simp only [litEvalF]
    exact orShortCircuit fuel env es ps h e0 w wf rest he0 hw F hF false
  · intro fuel env vs ps F hF h
    rw [evalF]
    simp only [litEvalF]
    exact orNoneTruthy fuel env vs ps h F hF false

/-- C4, witness: the amended theorem applied at concrete operands —
`and [1, 2]` yields the boolean `True`, `and [1, 0, x]` short-circuits at
`0` to the boolean `False` without touching `x`, `or [0, 5, x]`
short-circuits at `5` to `True`, and `or [0]` yields `False`. -/
theorem C4_boolop_amended_witness :
    evalF 9 [] (.boolop .andK [.num 1, .num 2]) =
      .ok (some (.vbool true, false)) ∧
    evalF 9 [] (.boolop .andK [.num 1, .num 0, .ref ["nope"]]) =
      .ok (some (.vbool false, false)) ∧
    evalF 9 [] (.boolop .orK [.num 0, .num 5, .ref ["nope"]]) =
      .ok (some (.vbool true, false)) ∧
    evalF 8 [] (.boolop .orK [.num 0]) = .ok (some (.vbool false, false)) :=
  ⟨C4_boolop_amended.1 5 [] [.num 1, .num 2]
     [(.vint 1, false), (.vint 2, false)] 5 (Nat.le_refl 5)
     (List.Forall₂.cons ⟨rfl, rfl⟩ (List.Forall₂.cons ⟨rfl, rfl⟩
       List.Forall₂.nil)),
   C4_boolop_amended.2.1 6 [] [.num 1] [(.vint 1, false)] (.num 0)
     (.vint 0) false [.ref ["nope"]] 6 (Nat.le_refl 6)
     (List.Forall₂.cons ⟨rfl, rfl⟩ List.Forall₂.nil) rfl rfl,
   C4_boolop_amended.2.2.1 6 [] [.num 0] [(.vint 0, false)] (.num 5)
     (.vint 5) false [.ref ["nope"]] 6 (Nat.le_refl 6)
     (List.Forall₂.cons ⟨rfl, rfl⟩ List.Forall₂.nil) rfl rfl,
   C4_boolop_amended.2.2.2 5 [] [.num 0] [(.vint 0, false)] 5
     (Nat.le_refl 5)
     (List.Forall₂.cons ⟨rfl, rfl⟩ List.Forall₂.nil)⟩

/-- C7, counterexample: `foo` is outside the whitelist, yet evaluating
`foo(1)` raises no UnsupportedOperation-kind error: `_acp_eval` falls off
the end of the function and returns Python `None`.  Reading an option whose
whole expression is such a call fails with a `TypeError` about unpacking
`None`, and inside a list literal the call's `None` result is silently
skipped (`[foo(), 2]` evaluates to `[2]` with no error at all). -/
theorem C7_unsupported_call_does_not_raise :
    whitelist.contains ("foo") = false ∧
    evalF 9 [] (.callE ("foo") [.num 1] []) = .ok none ∧
    readOpt 9 [] ⟨.callE ("foo") [.num 1] [], none⟩ =
      .error (.typeError ("cannot unpack non-iterable NoneType object")) ∧
    evalF 9 [] (.listE [.callE ("foo") [] [], .num 2]) =
      .ok (some (.vlist [.vint 2], false)) :=
  ⟨rfl, rfl, rfl, rfl⟩

/-- C7, amended: a `Call` whose function name is outside the whitelist does
not fail with an UnsupportedOperation-kind error — its evaluation produces
no result (Python `None`); the `None` is skipped inside container literals
and causes a TypeError-kind unpacking failure where a `(value, has_refs)`
pair is required.  For a whitelisted name, all positional arguments and
then all keyword arguments are evaluated left to right, the named builtin
is applied to the collected values, and `has_external_ref` is the OR of all
argument flags. -/
theorem C7_call_whitelist_amended :
    (∀ fuel env fn args kws, whitelist.contains fn = false →
       evalF (fuel + 1) env (.callE fn args kws) = .ok none) ∧
    (∀ fuel env fn args kws aps kps, whitelist.contains fn = true →
       List.Forall₂ (fun e (p : Obj × Bool) =>
         evalF fuel env e = .ok (some p)) args aps →
       List.Forall₂ (fun (ke : String × Expr) (p : String × Obj × Bool) =>
         ke.1 = p.1 ∧ evalF fuel env ke.2 = .ok (some p.2)) kws kps →
       evalF (fuel + args.length + kws.length + 1 + 1) env
           (.callE fn args kws) =
         match builtinApply fn (aps.map Prod.fst)
             (kps.map (fun p => (p.1, p.2.1))) with
         | .ok v => .ok (some (v,
             kps.foldl (fun a p => a || p.2.2)
               (aps.foldl (fun a p => a || p.2) false)))
         | .error er => .error er) := by
  constructor
  · intro fuel env fn args kws hw
    rw [evalF]
    simp only [litEvalF]
    rw [if_neg (by rw [hw]; simp)]
  · intro fuel env fn args kws aps kps hw hargs hkws
    have h1 : argsF (fuel + args.length + kws.length + 1) env false args =
        .ok (aps.map Prod.fst, aps.foldl (fun a p => a || p.2) false) := by
      rw [show fuel + args.length + kws.length + 1 =
            (fuel + kws.length) + args.length + 1 from by omega]
      exact argsFlagOr fuel env args aps hargs (fuel + kws.length)
        (by omega) false
    have h2 : kwargsF (fuel + args.length + kws.length + 1) env
        (aps.foldl (fun a p => a || p.2) false) kws =
        .ok (kps.map (fun p => (p.1, p.2.1)),
             kps.foldl (fun a p => a || p.2.2)
               (aps.foldl (fun a p => a || p.2) false)) := by
      rw [show fuel + args.length + kws.length + 1 =
            (fuel + args.length) + kws.length + 1 from by omega]
      exact kwargsFlagOr fuel env kws kps hkws (fuel + args.length)
        (by omega) _
    rw [evalF]
    simp only [litEvalF]
    rw [if_pos hw]
    simp only [h1, h2]

/-- C7, witness: the amended theorem applied at concrete inputs — the
non-whitelisted `foo()` yields no result, and the whitelisted
`len([1, 2])` evaluates its argument and applies the builtin with
`has_external_ref = false`. -/
theorem C7_call_whitelist_amended_witness :
    evalF 9 [] (.callE ("foo") [] []) = .ok none ∧
    evalF 8 [] (.callE ("len") [.listE [.num 1, .num 2]] []) =
      .ok (some (.vint 2, false)) :=
  ⟨C7_call_whitelist_amended.1 8 [] ("foo") [] [] rfl,
   C7_call_whitelist_amended.2 5 [] ("len") [.listE [.num 1, .num 2]] []
     [(.vlist [.vint 1, .vint 2], false)] [] rfl
     (List.Forall₂.cons rfl List.Forall₂.nil) List.Forall₂.nil⟩

/-- C9: `quote_str` chooses single-quote delimiters when the string has no
unescaped single quote; double-quote delimiters when it has an unescaped
single quote but no unescaped double quote; the chosen delimiter is tripled
exactly when the string contains a newline; and it fails (RuntimeError, the
AmbiguousQuoting kind) if and only if the string contains both an unescaped
single quote and an unescaped double quote. -/
theorem C9_quote_selection :
    (∀ s, quoteStr s =
        .error (.runtimeError ("could not determine suitable string quotes")) ↔
      (hasUnescaped tickChar s = true ∧ hasUnescaped dquoteChar s = true)) ∧
    (∀ s, hasUnescaped tickChar s = false →
       quoteStr s = .ok
         ((if s.data.contains nlChar then
             String.singleton tickChar ++ String.singleton tickChar ++
               String.singleton tickChar
           else String.singleton tickChar) ++ s ++
          (if s.data.contains nlChar then
             String.singleton tickChar ++ String.singleton tickChar ++
               String.singleton tickChar
           else String.singleton tickChar))) ∧
    (∀ s, hasUnescaped tickChar s = true → hasUnescaped dquoteChar s = false →
       quoteStr s = .ok
         ((if s.data.contains nlChar then
             String.singleton dquoteChar ++ String.singleton dquoteChar ++
               String.singleton dquoteChar
           else String.singleton dquoteChar) ++ s ++
          (if s.data.contains nlChar then
             String.singleton dquoteChar ++ String.singleton dquoteChar ++
               String.singleton dquoteChar
           else String.singleton dquoteChar))) := by
  refine ⟨?_, ?_, ?_⟩
  · intro s
    unfold quoteStr
    by_cases ht : hasUnescaped tickChar s <;>
      by_cases hd : hasUnescaped dquoteChar s <;>
      simp [ht, hd]
  · intro s ht
    unfold quoteStr
    simp [ht]
  · intro s ht hd
    unfold quoteStr
    simp [ht, hd]

/-- C9, witness: the characterization applied at concrete strings — a
plain string renders single-quoted, a string holding a single quote
renders double-quoted, a newline triples the delimiter, and a string with
both quote kinds is exactly the error case. -/
theorem C9_quote_selection_witness :
    quoteStr ("ab") =
      .ok (String.singleton tickChar ++ "ab" ++ String.singleton tickChar) ∧
    quoteStr (String.singleton tickChar) =
      .ok (String.singleton dquoteChar ++ String.singleton tickChar ++
           String.singleton dquoteChar) ∧
    quoteStr ("a" ++ String.singleton nlChar ++ "b") =
      .ok ((String.singleton tickChar ++ String.singleton tickChar ++
            String.singleton tickChar) ++ ("a" ++ String.singleton nlChar ++ "b") ++
           (String.singleton tickChar ++ String.singleton tickChar ++
            String.singleton tickChar)) ∧
    quoteStr (String.singleton tickChar ++ String.singleton dquoteChar) =
      .error (.runtimeError ("could not determine suitable string quotes")) :=
  ⟨C9_quote_selection.2.1 ("ab") rfl,
   C9_quote_selection.2.2 (String.singleton tickChar) rfl rfl,
   C9_quote_selection.2.1 ("a" ++ String.singleton nlChar ++ "b") rfl,
   (C9_quote_selection.1 (String.singleton tickChar ++
      String.singleton dquoteChar)).mpr ⟨rfl, rfl⟩⟩

/-- C10: writing a static (non-ast) value puts it straight into the cache,
so every subsequent read returns the new value without evaluating, while
the stored ast node is untouched — serializing the option still renders the
previously assigned expression's source text (`1` below), not the newly
written value (`2`). -/
theorem C10_static_write_leaves_node :
    (∀ fuel env st v, readOpt fuel env (writeStatic st v) =
       .ok (v, writeStatic st v, false)) ∧
    (∀ st v, (writeStatic st v).node = st.node) ∧
    (∀ fuel st v, astToSrcF fuel (writeStatic st v).node =
       astToSrcF fuel st.node) ∧
    astToSrcF 9 (writeStatic ⟨.num 1, none⟩ (.vint 2)).node = .ok ("1") ∧
    ("1" : String) ≠ ("2" : String) :=
  ⟨fun _ _ _ _ => rfl, fun _ _ => rfl, fun _ _ _ => rfl, rfl, by decide⟩

end ACP
